import Mathlib

/-!
Shallow embedding of the catalog-reconciliation core of the sales_cell
repository (Go): the name normalizer, price-list parser, spreadsheet row
extractor, tiered fuzzy matcher and the reconciliation orchestrator
(`importFromXLSXCombined` / `importFromPricesTextOnly`), together with the
Catalog Store operations they use (`MarkAllInactive`, `FindBySlug`, `Save`,
`SaveVariant`, `ListVariants`, `GetInactiveSlugs` and the `ProductUC`
wrappers).

Strings are modelled as `List Char`.  Go's `len` on strings is byte length,
so a separate `utf8Len` is used wherever the source calls `len`.  The
specific regular expressions the source compiles are embedded as dedicated
scanners; each of those patterns is deterministic (greedy maximal munch
coincides with Go's leftmost-first semantics, because no alternative of any
quantified subpattern can be extended by the character class that follows
it), so a single left-to-right scan with maximal munch reproduces
`ReplaceAllString` exactly.  Floating point prices are modelled as `ℚ`; the
only facts the claims use about prices are sign comparisons (`usd <= 0`),
which agree with `float64` on every value the price regex can produce.
-/

namespace SalesCell

abbrev Str := List Char

def s2l (s : String) : Str := s.data

/-- `unicode.IsSpace` (Go), used by `strings.TrimSpace` and `strings.Fields`. -/
def goIsSpace (c : Char) : Bool :=
  c == ' ' || c == '\t' || c == '\n' || c.toNat == 11 || c.toNat == 12 || c == '\r' ||
  c.toNat == 0x85 || c.toNat == 0xA0 || c.toNat == 0x1680 ||
  (decide (0x2000 ≤ c.toNat) && decide (c.toNat ≤ 0x200A)) ||
  c.toNat == 0x2028 || c.toNat == 0x2029 ||
  c.toNat == 0x202F || c.toNat == 0x205F || c.toNat == 0x3000

/-- The character class `\s` of Go's regexp package: `[\t\n\f\r ]`. -/
def reIsSpace (c : Char) : Bool :=
  c == ' ' || c == '\t' || c == '\n' || c.toNat == 12 || c == '\r'

def isDigitCh (c : Char) : Bool := decide ('0' ≤ c) && decide (c ≤ '9')

/-- `strings.TrimSpace`. -/
def trimSpace (s : Str) : Str :=
  ((s.dropWhile goIsSpace).reverse.dropWhile goIsSpace).reverse

/-- The upper/lower case pairs of the ASCII and Latin-1 letters (the
character set this code base exercises). -/
def upperLowerPairs : List (Char × Char) :=
  [('A', 'a'), ('B', 'b'), ('C', 'c'), ('D', 'd'), ('E', 'e'), ('F', 'f'),
   ('G', 'g'), ('H', 'h'), ('I', 'i'), ('J', 'j'), ('K', 'k'), ('L', 'l'),
   ('M', 'm'), ('N', 'n'), ('O', 'o'), ('P', 'p'), ('Q', 'q'), ('R', 'r'),
   ('S', 's'), ('T', 't'), ('U', 'u'), ('V', 'v'), ('W', 'w'), ('X', 'x'),
   ('Y', 'y'), ('Z', 'z'),
   ('À', 'à'), ('Á', 'á'), ('Â', 'â'), ('Ã', 'ã'), ('Ä', 'ä'), ('Å', 'å'),
   ('Æ', 'æ'), ('Ç', 'ç'), ('È', 'è'), ('É', 'é'), ('Ê', 'ê'), ('Ë', 'ë'),
   ('Ì', 'ì'), ('Í', 'í'), ('Î', 'î'), ('Ï', 'ï'), ('Ð', 'ð'), ('Ñ', 'ñ'),
   ('Ò', 'ò'), ('Ó', 'ó'), ('Ô', 'ô'), ('Õ', 'õ'), ('Ö', 'ö'), ('Ø', 'ø'),
   ('Ù', 'ù'), ('Ú', 'ú'), ('Û', 'û'), ('Ü', 'ü'), ('Ý', 'ý'), ('Þ', 'þ')]

/-- `unicode.ToLower` restricted to that character set (the claims never
exercise characters outside it). -/
def toLowerCh (c : Char) : Char :=
  ((upperLowerPairs.find? (fun pr => pr.1 == c)).map (·.2)).getD c

/-- `unicode.ToUpper` restricted likewise. -/
def toUpperCh (c : Char) : Char :=
  ((upperLowerPairs.find? (fun pr => pr.2 == c)).map (·.1)).getD c

def toLowerStr (s : Str) : Str := s.map toLowerCh

def toUpperStr (s : Str) : Str := s.map toUpperCh

/-- `strings.EqualFold` over the modelled character set. -/
def equalFold (a b : Str) : Bool := toLowerStr a == toLowerStr b

/-- Whether `p` is a prefix of `l` (decidable, executable). -/
def isPrefList : Str → Str → Bool
  | [], _ => true
  | _ :: _, [] => false
  | a :: ps, b :: ls => a == b && isPrefList ps ls

/-- `strings.Index` in character positions: the first position at which
`needle` occurs in the haystack (every occurrence starts at a rune boundary,
so the character position determines the byte position Go returns). -/
def idxOf? (needle : Str) : Str → Option Nat
  | [] => if isPrefList needle [] then some 0 else none
  | c :: t =>
    if isPrefList needle (c :: t) then some 0
    else (idxOf? needle t).map (· + 1)

/-- `strings.Contains`. -/
def containsStr (hay needle : Str) : Bool := (idxOf? needle hay).isSome

/-- Generic non-overlapping left-to-right replacement scanner: at each
position `step` either matches a non-empty prefix, yielding the replacement
text and the remainder, or the character is copied.  `fuel` bounds the
recursion; every caller passes the string's length, which suffices because
every matcher consumes at least one character. -/
def scanRepl (step : Str → Option (Str × Str)) : Nat → Str → Str
  | 0, s => s
  | _ + 1, [] => []
  | fuel + 1, c :: cs =>
    match step (c :: cs) with
    | some (rep, rest) => rep ++ scanRepl step fuel rest
    | none => c :: scanRepl step fuel cs

/-- `strings.ReplaceAll` (all our call sites use a non-empty `old`). -/
def goReplaceAll (s old new : Str) : Str :=
  if old = [] then s
  else scanRepl
    (fun t => if isPrefList old t then some (new, t.drop old.length) else none)
    s.length s

/-- `strings.TrimSuffix` (removes at most one copy). -/
def trimSuffixGo (s suf : Str) : Str :=
  if isPrefList suf.reverse s.reverse then s.take (s.length - suf.length) else s

/-- `strings.Trim(s, "-:\t ")`. -/
def isCutCh (c : Char) : Bool := c == '-' || c == ':' || c == '\t' || c == ' '

def trimCut (s : Str) : Str :=
  ((s.dropWhile isCutCh).reverse.dropWhile isCutCh).reverse

/-- `strings.Split(s, sep)` for a single-character separator. -/
def splitOnCh (sep : Char) : Str → List Str
  | [] => [[]]
  | c :: t =>
    if c = sep then [] :: splitOnCh sep t
    else
      match splitOnCh sep t with
      | [] => [[c]]
      | l :: ls => (c :: l) :: ls

def splitLines (s : Str) : List Str := splitOnCh '\n' s

/-- `strings.Fields`. -/
def fieldsCore : Str → Str → List Str
  | [], acc => if acc = [] then [] else [acc.reverse]
  | c :: t, acc =>
    if goIsSpace c then
      if acc = [] then fieldsCore t [] else acc.reverse :: fieldsCore t []
    else fieldsCore t (c :: acc)

def fields (s : Str) : List Str := fieldsCore s []

/-- `strings.Join(ws, " ")`. -/
def joinSpace : List Str → Str
  | [] => []
  | [w] => w
  | w :: ws => w ++ ' ' :: joinSpace ws

/-- UTF-8 byte size of a character (Go `len` counts bytes). -/
def utf8Size (c : Char) : Nat :=
  if c.toNat < 0x80 then 1
  else if c.toNat < 0x800 then 2
  else if c.toNat < 0x10000 then 3
  else 4

def utf8Len (s : Str) : Nat := (s.map utf8Size).sum

/-- Go byte slicing `s[:n]` on a lowered text, in characters: keeps the
longest prefix that fits in `n` bytes.  (Go keeps the leading bytes of a
split rune as well; those bytes are all ≥ 0x80 and therefore can never take
part in a match of the ASCII pattern `"sin stock"`, the only use site.) -/
def takeBytes : Nat → Str → Str
  | _, [] => []
  | n, c :: t => if utf8Size c ≤ n then c :: takeBytes (n - utf8Size c) t else []

/-! Dedicated scanners for the regular expressions the source compiles. -/

def takeDigits (s : Str) : Str × Str := (s.takeWhile isDigitCh, s.dropWhile isDigitCh)

/-- Matcher for `(\d+)\.\d+\s*"` with replacement `$1"`. -/
def tryInchDecimal (s : Str) : Option (Str × Str) :=
  let d1 := (takeDigits s).1
  let r1 := (takeDigits s).2
  if d1 = [] then none
  else
    match r1 with
    | '.' :: r2 =>
      let d2 := (takeDigits r2).1
      let r3 := (takeDigits r2).2
      if d2 = [] then none
      else
        match r3.dropWhile reIsSpace with
        | '"' :: r5 => some (d1 ++ ['"'], r5)
        | _ => none
    | _ => none

/-- Matcher for `(\d+)\.\d+\s*"` with replacement `$1` (matcher-internal
normalisation drops the inch mark). -/
def tryInchDecimalDrop (s : Str) : Option (Str × Str) :=
  (tryInchDecimal s).map (fun pr => (pr.1.dropLast, pr.2))

/-- Matcher for `(\d+)\s+"` with replacement `$1"`. -/
def tryInchSpace (s : Str) : Option (Str × Str) :=
  let d1 := (takeDigits s).1
  let r1 := (takeDigits s).2
  if d1 = [] then none
  else
    match r1 with
    | c :: r2 =>
      if reIsSpace c then
        match r2.dropWhile reIsSpace with
        | '"' :: r5 => some (d1 ++ ['"'], r5)
        | _ => none
      else none
    | [] => none

/-- Matcher for `\s*\([^)]*\)\s*` with replacement `" "`. -/
def tryParenSp (s : Str) : Option (Str × Str) :=
  match s.dropWhile reIsSpace with
  | '(' :: r2 =>
    match r2.dropWhile (fun c => !(c == ')')) with
    | ')' :: r4 => some ([' '], r4.dropWhile reIsSpace)
    | _ => none
  | _ => none

/-- Matcher for `\s*\([^)]*\)` with replacement `""`. -/
def tryParenNoTrail (s : Str) : Option (Str × Str) :=
  match s.dropWhile reIsSpace with
  | '(' :: r2 =>
    match r2.dropWhile (fun c => !(c == ')')) with
    | ')' :: r4 => some ([], r4)
    | _ => none
  | _ => none

/-- The unit alternatives `GB|TB|MHz|mm`, tried in the source's order. -/
def unitAfterDigits (s : Str) : Option (Str × Str) :=
  if isPrefList (s2l "GB") s then some (s2l "GB", s.drop 2)
  else if isPrefList (s2l "TB") s then some (s2l "TB", s.drop 2)
  else if isPrefList (s2l "MHz") s then some (s2l "MHz", s.drop 3)
  else if isPrefList (s2l "mm") s then some (s2l "mm", s.drop 2)
  else none

/-- Matcher for `(\d+)(GB|TB|MHz|mm)` with replacement `$1 $2`. -/
def tryUnit (s : Str) : Option (Str × Str) :=
  let d := (takeDigits s).1
  let r := (takeDigits s).2
  if d = [] then none
  else
    match unitAfterDigits r with
    | some (u, rest) => some (d ++ ' ' :: u, rest)
    | none => none

/-- Matcher for `(\d+)/(\d+)\s*(GB|TB)` with replacement `$1/$2 $3`. -/
def tryDual (s : Str) : Option (Str × Str) :=
  let d1 := (takeDigits s).1
  let r1 := (takeDigits s).2
  if d1 = [] then none
  else
    match r1 with
    | '/' :: r2 =>
      let d2 := (takeDigits r2).1
      let r3 := (takeDigits r2).2
      if d2 = [] then none
      else
        let r4 := r3.dropWhile reIsSpace
        if isPrefList (s2l "GB") r4 then some (d1 ++ '/' :: d2 ++ ' ' :: s2l "GB", r4.drop 2)
        else if isPrefList (s2l "TB") r4 then some (d1 ++ '/' :: d2 ++ ' ' :: s2l "TB", r4.drop 2)
        else none
    | _ => none

/-- Matcher for `ipad\s+(\d+)\s+(a\d+)` with replacement `ipad $2 $1`
(applied to an already lower-cased string). -/
def tryIpadSwap (s : Str) : Option (Str × Str) :=
  if isPrefList (s2l "ipad") s then
    let r1 := s.drop 4
    let sp1 := r1.takeWhile reIsSpace
    let r2 := r1.dropWhile reIsSpace
    if sp1 = [] then none
    else
      let d1 := (takeDigits r2).1
      let r3 := (takeDigits r2).2
      if d1 = [] then none
      else
        let sp2 := r3.takeWhile reIsSpace
        let r4 := r3.dropWhile reIsSpace
        if sp2 = [] then none
        else
          match r4 with
          | 'a' :: r5 =>
            let d2 := (takeDigits r5).1
            let r6 := (takeDigits r5).2
            if d2 = [] then none
            else some (s2l "ipad " ++ 'a' :: d2 ++ ' ' :: d1, r6)
          | _ => none
  else none

/-- Matcher for the price token `\$\s*([0-9][0-9.,]*)`; returns the capture
group and the remainder. -/
def tryPriceTok : Str → Option (Str × Str)
  | '$' :: r1 =>
    let r2 := r1.dropWhile reIsSpace
    match r2 with
    | c :: r3 =>
      if isDigitCh c then
        let tail := r3.takeWhile (fun d => isDigitCh d || d == '.' || d == ',')
        some (c :: tail, r3.dropWhile (fun d => isDigitCh d || d == '.' || d == ','))
      else none
    | [] => none
  | _ => none

/-- `priceRe.FindStringSubmatch`: capture group of the leftmost match. -/
def findPriceTok : Str → Option Str
  | [] => none
  | c :: t =>
    match tryPriceTok (c :: t) with
    | some (cap, _) => some cap
    | none => findPriceTok t

/-- `priceRe.ReplaceAllString(l, "")`. -/
def removePriceToks (s : Str) : Str :=
  scanRepl (fun t => (tryPriceTok t).map (fun pr => ([], pr.2))) s.length s

/-! The pure name-handling functions of the import code. -/

/-- Source `isSectionTitle`: upper-cased trimmed, non-empty, without digits. -/
def isSectionTitle (s0 : Str) : Bool :=
  let s := trimSpace (toUpperStr s0)
  if s = [] then false else !(s.any isDigitCh)

/-- The color vocabulary of `removeColorFromName`. -/
def colorsList : List Str :=
  [s2l "negro", s2l "black", s2l "blanco", s2l "white", s2l "azul", s2l "blue",
   s2l "rosa", s2l "pink", s2l "amarillo", s2l "yellow", s2l "verde", s2l "green",
   s2l "silver", s2l "starlight", s2l "midnight", s2l "purple", s2l "púrpura",
   s2l "morado", s2l "space", s2l "gray", s2l "grey", s2l "gris", s2l "oro",
   s2l "gold", s2l "red", s2l "rojo", s2l "orange", s2l "naranja", s2l "coral",
   s2l "arena", s2l "sand", s2l "cosmic", s2l "deep", s2l "pearl", s2l "perlado",
   s2l "oscuro", s2l "dark", s2l "light", s2l "claro"]

/-- Source `removeColorFromName`. -/
def removeColorFromName (s0 : Str) : Str :=
  let s := trimSpace (scanRepl tryParenSp s0.length s0)
  let parts := fields s
  if parts = [] then s
  else
    let lastWord := toLowerStr (parts.getD (parts.length - 1) [])
    if colorsList.any (fun c => lastWord == c || containsStr lastWord c) then
      trimSpace (joinSpace (parts.take (parts.length - 1)))
    else if 2 ≤ parts.length then
      let lastTwo :=
        toLowerStr (parts.getD (parts.length - 2) [] ++ ' ' :: parts.getD (parts.length - 1) [])
      if colorsList.any (fun c => containsStr lastTwo c) then
        trimSpace (joinSpace (parts.take (parts.length - 2)))
      else s
    else s

/-- The color vocabulary of `inferColorFromName` (display-cased). -/
def inferColorsList : List Str :=
  [s2l "Negro", s2l "Black", s2l "Blanco", s2l "White", s2l "Azul", s2l "Blue",
   s2l "Rosa", s2l "Pink", s2l "Amarillo", s2l "Yellow", s2l "Verde", s2l "Green",
   s2l "Silver", s2l "Starlight", s2l "Midnight", s2l "Purple", s2l "Space Gray",
   s2l "Space Black", s2l "Natural", s2l "Sage Green", s2l "Mist Blue", s2l "Lavender"]

/-- Source `inferColorFromName`. -/
def inferColorFromName (s : Str) : Str :=
  let ls := toLowerStr s
  match inferColorsList.find? (fun c => containsStr ls (toLowerStr c)) with
  | some c => c
  | none => []

/-- Source `normalizeBaseKey`. -/
def normalizeBaseKey (s0 : Str) : Str :=
  let s := trimSpace s0
  let s := goReplaceAll s ['\t'] [' ']
  let s := scanRepl tryInchDecimal s.length s
  let s := scanRepl tryInchSpace s.length s
  let s := goReplaceAll s [Char.ofNat 39] ['"']
  let s := scanRepl tryParenSp s.length s
  let s := joinSpace (fields s)
  let s := scanRepl tryUnit s.length s
  let s := scanRepl tryDual s.length s
  let s := goReplaceAll s (s2l "Wifi") (s2l "WiFi")
  let s := goReplaceAll s (s2l "wifi") (s2l "WiFi")
  let s := goReplaceAll s (s2l "wi-fi") (s2l "WiFi")
  let s := goReplaceAll s (s2l "  ") (s2l " ")
  joinSpace (fields s)

/-- Source `slugify`. -/
def slugify (s : Str) : Str :=
  toLowerStr (goReplaceAll (trimSpace s) [' '] ['-'])

/-- The slug `ProductUC.Create` recomputes on every save:
`strings.ToLower(strings.ReplaceAll(p.Name, " ", "-"))`. -/
def computeSlug (name : Str) : Str := toLowerStr (goReplaceAll name [' '] ['-'])

/-- Source `inferBrandModel`. -/
def inferBrandModel (s : Str) : Str × Str :=
  match fields s with
  | [] => ([], [])
  | b :: rest => (b, trimSpace (joinSpace rest))

/-- Source `mapStock`. -/
def mapStock (s : Str) : Int :=
  let t := trimSpace (toLowerStr s)
  if t = [] then 0
  else if containsStr t (s2l "sin") then 0
  else if containsStr t (s2l "bajo") then 2
  else 10

/-- Source `detectUnmatchReason`. -/
def detectUnmatchReason (baseKey pricesText : Str) : Str :=
  let baseKeyLower := toLowerStr baseKey
  let pricesTextLower := toLowerStr pricesText
  if ¬ containsStr pricesTextLower baseKeyLower then
    let parts := fields baseKey
    if 2 ≤ parts.length then
      let partialName := toLowerStr (parts.getD 0 [] ++ ' ' :: parts.getD 1 [])
      if containsStr pricesTextLower partialName then s2l "formato_diferente"
      else s2l "no_encontrado"
    else s2l "no_encontrado"
  else
    match idxOf? baseKeyLower pricesTextLower with
    | some idx =>
      let snippet := takeBytes 150 (pricesTextLower.drop idx)
      if containsStr snippet (s2l "sin stock") then s2l "sin_stock"
      else s2l "precio_invalido"
    | none => s2l "precio_invalido"

/-- The aggressive comparison form computed by the closure `normalize`
inside `matchUSDPrice`. -/
def matcherSuffixes : List Str :=
  [s2l " 5g ds", s2l " 4g ds", s2l " 5g", s2l " 4g", s2l " ds",
   s2l " wifi", s2l " wi-fi", s2l " lte"]

def matcherNormalize (s0 : Str) : Str :=
  let s := toLowerStr s0
  let s := scanRepl tryParenNoTrail s.length s
  let s := scanRepl tryInchDecimalDrop s.length s
  let s := goReplaceAll s ['"'] []
  let s := matcherSuffixes.foldl (fun t suf => trimSuffixGo t suf) s
  let s := goReplaceAll s [Char.ofNat 160] [' ']
  let s := goReplaceAll s ['+'] [' ']
  let s := joinSpace (fields s)
  let s := scanRepl tryIpadSwap s.length s
  trimSpace s

/-- The price map `map[string]float64`, modelled as an association list with
unique keys (insertion overwrites in place, otherwise appends; Go map
iteration order is unspecified, the list order is the model's stand-in). -/
abbrev PriceMap := List (Str × ℚ)

def assocFind (m : PriceMap) (k : Str) : Option ℚ :=
  (m.find? (fun e => e.1 == k)).map (·.2)

/-- Go `m[k]` read: zero value for an absent key. -/
def mapGet (m : PriceMap) (k : Str) : ℚ := (assocFind m k).getD 0

def insertPrice (m : PriceMap) (k : Str) (v : ℚ) : PriceMap :=
  if m.any (fun e => e.1 == k) then
    m.map (fun e => if e.1 == k then (e.1, v) else e)
  else m ++ [(k, v)]

/-- The first `min(3, n)` comparison-form tokens of a name (the signature
the partial tier works on). -/
def sigTokens (s : Str) : List Str :=
  (fields (matcherNormalize s)).take (min 3 (fields (matcherNormalize s)).length)

/-- The 2-3 token signature string (`strings.Join(words[:min(3,n)], " ")`). -/
def sigPattern (s : Str) : Str := joinSpace (sigTokens s)

/-- How many of the candidate's signature tokens occur in the query's
signature token set. -/
def overlapCount (query k : Str) : Nat :=
  ((sigTokens k).filter (fun w => (sigTokens query).contains w)).length

/-- The partial-overlap test of `matchUSDPrice`'s third tier for one
candidate key `k` against the query `baseKey`. -/
def partialHit (query k : Str) : Bool :=
  let kNorm := matcherNormalize k
  (containsStr kNorm (sigPattern query) || containsStr (sigPattern query) kNorm) &&
  (decide (2 ≤ (fields kNorm).length) &&
   (decide (2 ≤ overlapCount query k) &&
    decide (8 < utf8Len (sigPattern query)) && decide (8 < utf8Len (sigPattern k))))

/-- Source `matchUSDPrice`: exact tier, normalized tier, partial tier. -/
def matchUSDPrice (m : PriceMap) (baseKey : Str) : ℚ :=
  match assocFind m baseKey with
  | some v => v
  | none =>
    let baseNorm := matcherNormalize baseKey
    match m.find? (fun e => matcherNormalize e.1 == baseNorm) with
    | some e => e.2
    | none =>
      if 2 ≤ (fields baseNorm).length then
        match m.find? (fun e => partialHit baseKey e.1) with
        | some e => e.2
        | none => 0
      else 0

/-- `strconv.ParseFloat` on the character set the price capture can produce
(digits and dots, commas already removed); parse errors yield the zero value
exactly as the source's ignored-error pattern does. -/
def digitsToNat (s : Str) : Nat := s.foldl (fun a c => a * 10 + (c.toNat - 48)) 0

def parseFloatQ (s : Str) : ℚ :=
  match splitOnCh '.' s with
  | [ip] => if ip ≠ [] ∧ ip.all isDigitCh then (digitsToNat ip : ℚ) else 0
  | [ip, fp] =>
    if ip ≠ [] ∧ ip.all isDigitCh ∧ fp.all isDigitCh then
      (digitsToNat ip : ℚ) + (digitsToNat fp : ℚ) / (10 ^ fp.length : ℚ)
    else 0
  | _ => 0

/-- One line of source `parseUSDPrices`'s loop. -/
def parsePriceLine (m : PriceMap) (ln : Str) : PriceMap :=
  let l := trimSpace ln
  if l = [] then m
  else if containsStr (toLowerStr l) (s2l "sin stock") ||
      containsStr (toLowerStr l) (s2l "sin precio") then m
  else
    match findPriceTok l with
    | some cap =>
      let usdStr := goReplaceAll cap [','] []
      let usd := parseFloatQ usdStr
      let name := trimCut (trimSpace (removePriceToks l))
      let key := normalizeBaseKey name
      if key ≠ [] ∧ 0 < usd then insertPrice m key usd else m
    | none => m

def parsePriceLines (ls : List Str) : PriceMap := ls.foldl parsePriceLine []

/-- Source `parseUSDPrices`. -/
def parseUSDPrices (text : Str) : PriceMap :=
  if trimSpace text = [] then [] else parsePriceLines (splitLines text)

/-! The Catalog Store.  `domain.Product` / `domain.Variant` keep the fields
the import touches; UUIDs are modelled by a fresh-id counter (`uuid.Nil` is
`0`).  `Save` is the GORM upsert by primary key; the unique index on
`Product.Slug` makes a save that would duplicate another product's slug fail
(the import ignores the error, leaving the store unchanged).  Every store
call appends to an operation log so that "no store call is issued" is
expressible. -/

structure Product where
  pid : Nat
  slug : Str
  name : Str
  category : Str
  brand : Str
  modelName : Str
  grossPrice : ℚ
  marginPct : ℚ
  basePrice : ℚ
  active : Bool
deriving DecidableEq

structure Variant where
  vid : Nat
  productID : Nat
  color : Str
  stock : Int
deriving DecidableEq

inductive StoreOp where
  | markAllInactive
  | findBySlug (slug : Str)
  | saveProduct (ok : Bool) (p : Product)
  | listVariants (pid : Nat)
  | saveVariant (v : Variant)
  | getInactiveSlugs
deriving DecidableEq

structure Store where
  products : List Product
  variants : List Variant
  nextId : Nat
  log : List StoreOp
deriving DecidableEq

/-- Repo `MarkAllInactive`: `UPDATE products SET active = false`. -/
def repoMarkAllInactive (st : Store) : Store :=
  { st with products := st.products.map (fun p => { p with active := false }),
            log := st.log ++ [.markAllInactive] }

/-- Repo `FindBySlug`: first product with the slug, if any. -/
def repoFindBySlug (st : Store) (s : Str) : Option Product × Store :=
  (st.products.find? (fun p => p.slug == s),
   { st with log := st.log ++ [.findBySlug s] })

/-- Repo `Save` for products: upsert by primary key, failing (store left
unchanged) when another product already holds the slug (unique index). -/
def repoSaveProduct (st : Store) (p : Product) : Store :=
  if st.products.any (fun q => q.slug == p.slug && q.pid != p.pid) then
    { st with log := st.log ++ [.saveProduct false p] }
  else if st.products.any (fun q => q.pid == p.pid) then
    { st with products := st.products.map (fun q => if q.pid == p.pid then p else q),
              log := st.log ++ [.saveProduct true p] }
  else
    { st with products := st.products ++ [p],
              log := st.log ++ [.saveProduct true p] }

/-- Repo `SaveVariant`: upsert by primary key (no unique constraints). -/
def repoSaveVariant (st : Store) (v : Variant) : Store :=
  if st.variants.any (fun w => w.vid == v.vid) then
    { st with variants := st.variants.map (fun w => if w.vid == v.vid then v else w),
              log := st.log ++ [.saveVariant v] }
  else
    { st with variants := st.variants ++ [v],
              log := st.log ++ [.saveVariant v] }

/-- Repo `ListVariants`: all variants of the product, in creation order. -/
def repoListVariants (st : Store) (pid : Nat) : List Variant × Store :=
  (st.variants.filter (fun v => v.productID == pid),
   { st with log := st.log ++ [.listVariants pid] })

/-- Repo `GetInactiveSlugs`: slugs of all products with `active = false`. -/
def repoGetInactiveSlugs (st : Store) : List Str × Store :=
  ((st.products.filter (fun p => !p.active)).map (·.slug),
   { st with log := st.log ++ [.getInactiveSlugs] })

/-- `ProductUC.GetBySlug`: an empty slug is rejected before the repo call. -/
def ucGetBySlug (st : Store) (s : Str) : Option Product × Store :=
  if s = [] then (none, st) else repoFindBySlug st s

/-- `ProductUC.Create`: assigns a fresh id when the id is nil, recomputes
`Slug = ToLower(ReplaceAll(Name, " ", "-"))`, then saves.  Returns the
product as mutated by the call (the import keeps using it afterwards even
when the save itself failed). -/
def ucCreateProduct (st : Store) (p : Product) : Product × Store :=
  let pr :=
    if p.pid = 0 then ({ p with pid := st.nextId }, { st with nextId := st.nextId + 1 })
    else (p, st)
  let p1 := { pr.1 with slug := computeSlug pr.1.name }
  (p1, repoSaveProduct pr.2 p1)

/-- `ProductUC.CreateVariant`. -/
def ucCreateVariant (st : Store) (v : Variant) : Variant × Store :=
  let vr :=
    if v.vid = 0 then ({ v with vid := st.nextId }, { st with nextId := st.nextId + 1 })
    else (v, st)
  (vr.1, repoSaveVariant vr.2 vr.1)

/-- `ProductUC.UpdateVariant`: a nil id is rejected before the repo call. -/
def ucUpdateVariant (st : Store) (v : Variant) : Store :=
  if v.vid = 0 then st else repoSaveVariant st v

/-- `ProductUC.ListVariants`: a nil product id is rejected before the repo
call (the import ignores the error and iterates the nil slice). -/
def ucListVariants (st : Store) (pid : Nat) : List Variant × Store :=
  if pid = 0 then ([], st) else repoListVariants st pid

/-- Successfully saved product ids, in order, extracted from the log. -/
def savedPids (l : List StoreOp) : List Nat :=
  l.filterMap (fun op =>
    match op with
    | .saveProduct true p => some p.pid
    | _ => none)

/-! The reconciliation orchestrator. -/

structure ImportReport where
  createdProducts : Nat
  updatedProducts : Nat
  createdVariants : Nat
  updatedVariants : Nat
  unmatchedPrices : Nat
  deprecatedProducts : Nat
  unmatchedItems : List (Str × Nat)
  unmatchedReasons : List (Str × Str)
  createdProductSlugs : List Str
  updatedProductSlugs : List Str
  deprecatedSlugs : List Str
  createdVariantKeys : List Str
  updatedVariantKeys : List Str
deriving DecidableEq

/-- The in-pass mutable state of `importFromXLSXCombined`'s loops. -/
structure PassState where
  category : Str
  createdP : Nat
  updatedP : Nat
  createdV : Nat
  updatedV : Nat
  unmatched : Nat
  unmatchedItems : List (Str × Nat)
  unmatchedReasons : List (Str × Str)
  createdProductSlugs : List Str
  updatedProductSlugs : List Str
  createdVariantKeys : List Str
  updatedVariantKeys : List Str
  activatedSlugs : List Str
  processed : List (Nat × List Str)
deriving DecidableEq

def bumpCount (m : List (Str × Nat)) (k : Str) : List (Str × Nat) :=
  if m.any (fun e => e.1 == k) then
    m.map (fun e => if e.1 == k then (e.1, e.2 + 1) else e)
  else m ++ [(k, 1)]

def setReasonIfAbsent (m : List (Str × Str)) (k r : Str) : List (Str × Str) :=
  if m.any (fun e => e.1 == k) then m else m ++ [(k, r)]

def addSlugSet (l : List Str) (s : Str) : List Str :=
  if l.contains s then l else l ++ [s]

/-- `processedVariants[p.ID][colorKey] = true` (a map used as a set). -/
def addProcessedColor (m : List (Nat × List Str)) (pid : Nat) (ck : Str) :
    List (Nat × List Str) :=
  if m.any (fun e => e.1 == pid) then
    m.map (fun e =>
      if e.1 == pid then (e.1, if e.2.contains ck then e.2 else e.2 ++ [ck]) else e)
  else m ++ [(pid, [ck])]

/-- A spreadsheet row as `excelize.GetRows` yields it (trailing empty cells
absent, so cell access is by bounded index).  The source reads `row[2]`
without a bound check on the header-skip line; rows of length exactly 2
would panic there, so the embedding (which pads with the empty string) is
faithful only for workbooks without such rows — the pass theorems carry
that hypothesis. -/
abbrev Row := List Str

abbrev Workbook := List (List Row)

def rowName (row : Row) : Str := trimSpace (row.getD 1 [])

def rowColorCell (row : Row) : Str := trimSpace (row.getD 2 [])

def rowStockStr (row : Row) : Str :=
  let d := trimSpace (row.getD 3 [])
  if d = [] then trimSpace (row.getD 4 []) else d

def rowColor (row : Row) : Str :=
  if rowColorCell row = [] then inferColorFromName (rowName row) else rowColorCell row

def rowBaseKey (row : Row) : Str := normalizeBaseKey (removeColorFromName (rowName row))

/-- The two price tiers of the row loop: the direct map read, then the
fuzzy matcher when the read is not positive. -/
def rowUSD (pm : PriceMap) (row : Row) : ℚ :=
  let usd := mapGet pm (rowBaseKey row)
  if usd ≤ 0 then
    let alt := matchUSDPrice pm (rowBaseKey row)
    if 0 < alt then alt else usd
  else usd

/-- The product upsert of the row loop: look up by slug, create with
`Active=true` or update prices and force `Active=true`.  Returns the
product reference the rest of the iteration uses, the store, and whether
the create branch was taken. -/
def rowProductUpsert (st : Store) (baseKey category : Str) (gross margin price : ℚ) :
    Product × Store × Bool :=
  let bm := inferBrandModel baseKey
  let found := ucGetBySlug st (slugify baseKey)
  match found.1 with
  | none =>
    let p0 : Product :=
      { pid := 0, slug := [], name := baseKey, category := category,
        brand := bm.1, modelName := bm.2, grossPrice := gross,
        marginPct := margin, basePrice := price, active := true }
    let cr := ucCreateProduct found.2 p0
    (cr.1, cr.2, true)
  | some p =>
    let p1 := { p with grossPrice := gross, marginPct := margin,
                       basePrice := price, active := true }
    let cr := ucCreateProduct found.2 p1
    (cr.1, cr.2, false)

/-- The matched branch of the row loop: product upsert, processed-color
tracking, then variant create-or-update. -/
def stepRowMatched (pm : PriceMap) (fx margin : ℚ)
    (ps : PassState) (st : Store) (row : Row) : PassState × Store :=
  let baseKey := rowBaseKey row
  let color := rowColor row
  let stockStr := rowStockStr row
  let stock := mapStock stockStr
  let usd := rowUSD pm row
  let gross := usd * fx
  let price := gross * (1 + margin / 100)
  let up := rowProductUpsert st baseKey ps.category gross margin price
  let pRef := up.1
  let st2 := up.2.1
  let ps1 :=
    if up.2.2 then
      { ps with
          createdP := ps.createdP + 1,
          createdProductSlugs :=
            if pRef.slug ≠ [] then ps.createdProductSlugs ++ [pRef.slug]
            else ps.createdProductSlugs,
          activatedSlugs :=
            if pRef.slug ≠ [] then addSlugSet ps.activatedSlugs pRef.slug
            else ps.activatedSlugs }
    else
      { ps with
          updatedP := ps.updatedP + 1,
          updatedProductSlugs :=
            if pRef.slug ≠ [] then ps.updatedProductSlugs ++ [pRef.slug]
            else ps.updatedProductSlugs,
          activatedSlugs :=
            if pRef.slug ≠ [] then addSlugSet ps.activatedSlugs pRef.slug
            else ps.activatedSlugs }
  let ck := toLowerStr (trimSpace color)
  let ps2 := { ps1 with processed := addProcessedColor ps1.processed pRef.pid ck }
  let lv := ucListVariants st2 pRef.pid
  let st3 := lv.2
  match lv.1.find? (fun v => equalFold (trimSpace v.color) (trimSpace color)) with
  | none =>
    let nv : Variant := { vid := 0, productID := pRef.pid, color := color, stock := stock }
    let cv := ucCreateVariant st3 nv
    ({ ps2 with
        createdV := ps2.createdV + 1,
        createdVariantKeys :=
          if pRef.slug ≠ [] then
            ps2.createdVariantKeys ++ [pRef.slug ++ ':' :: trimSpace color]
          else ps2.createdVariantKeys }, cv.2)
  | some ev =>
    let ev1 := if trimSpace stockStr ≠ [] ∧ 0 ≤ stock then { ev with stock := stock } else ev
    ({ ps2 with
        updatedV := ps2.updatedV + 1,
        updatedVariantKeys :=
          if pRef.slug ≠ [] then
            ps2.updatedVariantKeys ++ [pRef.slug ++ ':' :: trimSpace color]
          else ps2.updatedVariantKeys }, ucUpdateVariant st3 ev1)

/-- One iteration of the row loop of `importFromXLSXCombined`. -/
def stepRow (pm : PriceMap) (pricesText : Str) (fx margin : ℚ)
    (acc : PassState × Store) (row : Row) : PassState × Store :=
  if row = [] then acc
  else if isSectionTitle (rowName row) then
    ({ acc.1 with category := toLowerStr (trimSpace (rowName row)) }, acc.2)
  else if rowName row = [] then acc
  else if equalFold (trimSpace (row.getD 2 [])) (s2l "Color") then acc
  else if rowUSD pm row ≤ 0 then
    ({ acc.1 with
        unmatched := acc.1.unmatched + 1,
        unmatchedItems := bumpCount acc.1.unmatchedItems (rowBaseKey row),
        unmatchedReasons := setReasonIfAbsent acc.1.unmatchedReasons (rowBaseKey row)
          (detectUnmatchReason (rowBaseKey row) pricesText) }, acc.2)
  else stepRowMatched pm fx margin acc.1 acc.2 row

/-- One sheet: the running category resets at each sheet boundary. -/
def stepSheet (pm : PriceMap) (pricesText : Str) (fx margin : ℚ)
    (acc : PassState × Store) (rows : List Row) : PassState × Store :=
  rows.foldl (stepRow pm pricesText fx margin) ({ acc.1 with category := [] }, acc.2)

/-- One variant of the stock-zero sweep: variants whose color key was not
processed this pass get stock 0. -/
def sweepVariant (colors : List Str) (st : Store) (v : Variant) : Store :=
  if colors.contains (toLowerStr (trimSpace v.color)) then st
  else ucUpdateVariant st { v with stock := 0 }

def sweepEntry (st : Store) (e : Nat × List Str) : Store :=
  let lv := ucListVariants st e.1
  lv.1.foldl (sweepVariant e.2) lv.2

/-- "PASO 1.5" of `importFromXLSXCombined`. -/
def stockZeroSweep (st : Store) (processed : List (Nat × List Str)) : Store :=
  processed.foldl sweepEntry st

def emptyPassState : PassState :=
  { category := [], createdP := 0, updatedP := 0, createdV := 0, updatedV := 0,
    unmatched := 0, unmatchedItems := [], unmatchedReasons := [],
    createdProductSlugs := [], updatedProductSlugs := [],
    createdVariantKeys := [], updatedVariantKeys := [],
    activatedSlugs := [], processed := [] }

/-- Source `importFromXLSXCombined`.  The workbook argument is the result
of `excelize.OpenReader`: `none` models an unreadable container, in which
case the function returns all-zero counts before any store access. -/
def importFromXLSXCombined (wb : Option Workbook) (pm : PriceMap) (pricesText : Str)
    (fx margin : ℚ) (st : Store) :
    (Nat × Nat × Nat × Nat × Nat) × Store × Option ImportReport :=
  match wb with
  | none => ((0, 0, 0, 0, 0), st, none)
  | some sheets =>
    let st1 := repoMarkAllInactive st
    let r := sheets.foldl (stepSheet pm pricesText fx margin) (emptyPassState, st1)
    let psN := r.1
    let st2 := stockZeroSweep r.2 psN.processed
    let gi := repoGetInactiveSlugs st2
    let rep : ImportReport :=
      { createdProducts := psN.createdP, updatedProducts := psN.updatedP,
        createdVariants := psN.createdV, updatedVariants := psN.updatedV,
        unmatchedPrices := psN.unmatched, deprecatedProducts := gi.1.length,
        unmatchedItems := psN.unmatchedItems, unmatchedReasons := psN.unmatchedReasons,
        createdProductSlugs := psN.createdProductSlugs,
        updatedProductSlugs := psN.updatedProductSlugs,
        deprecatedSlugs := gi.1,
        createdVariantKeys := psN.createdVariantKeys,
        updatedVariantKeys := psN.updatedVariantKeys }
    ((psN.createdP, psN.updatedP, psN.createdV, psN.updatedV, psN.unmatched), gi.2, some rep)

/-- The base keys `importFromPricesTextOnly` extracts from the workbook to
know which products the spreadsheet already covered. -/
def excelBaseKeys (wb : Option Workbook) : List Str :=
  match wb with
  | none => []
  | some sheets =>
    sheets.foldl (fun acc rows =>
      rows.foldl (fun acc row =>
        if 1 < row.length then
          let name := trimSpace (row.getD 1 [])
          if name ≠ [] ∧ isSectionTitle name = false then
            acc ++ [normalizeBaseKey (removeColorFromName name)]
          else acc
        else acc) acc) []

/-- The section scan of `importFromPricesTextOnly`: walk the price-text
lines carrying the current section title; the first line containing the
product name (lower-cased) decides the category. -/
def findCategoryInText (lines : List Str) (baseLower current : Str) : Str :=
  match lines with
  | [] => []
  | ln :: rest =>
    let lineTrim := trimSpace ln
    if lineTrim = [] then findCategoryInText rest baseLower current
    else if isSectionTitle lineTrim then
      findCategoryInText rest baseLower (toLowerStr lineTrim)
    else if containsStr (toLowerStr lineTrim) baseLower then current
    else findCategoryInText rest baseLower current

/-- The keyword fallback chain of `importFromPricesTextOnly`. -/
def keywordCategory (baseLower : Str) : Str :=
  if containsStr baseLower (s2l "macbook") || containsStr baseLower (s2l "notebook") ||
      containsStr baseLower (s2l "nb ") then s2l "notebooks"
  else if containsStr baseLower (s2l "ipad") || containsStr baseLower (s2l "tablet") then
    s2l "tablets"
  else if containsStr baseLower (s2l "watch") && !(containsStr baseLower (s2l "iphone")) then
    s2l "pencil para ipad usb-c"
  else if containsStr baseLower (s2l "airpods") || containsStr baseLower (s2l "airtag") ||
      containsStr baseLower (s2l "pencil") then s2l "pencil para ipad usb-c"
  else if containsStr baseLower (s2l "jbl") then
    if containsStr baseLower (s2l "auri") then s2l "audio-auris" else s2l "audio-parlantes"
  else if containsStr baseLower (s2l "ps5") || containsStr baseLower (s2l "xbox") ||
      containsStr baseLower (s2l "nintendo") || containsStr baseLower (s2l "quest") then
    s2l "consolas/gaming"
  else if containsStr baseLower (s2l "amazfit") || containsStr baseLower (s2l "garmin") ||
      containsStr baseLower (s2l "smart band") || containsStr baseLower (s2l "galaxy fit") ||
      containsStr baseLower (s2l "poco watch") || containsStr baseLower (s2l "x-view") then
    s2l "smartwatches"
  else if containsStr baseLower (s2l "echo") || containsStr baseLower (s2l "kindle") ||
      containsStr baseLower (s2l "gopro") || containsStr baseLower (s2l "insta360") then
    s2l "electrónica liviana"
  else []

/-- The category inference of `importFromPricesTextOnly`: section scan of
the price text first, keyword fallback second. -/
def priceOnlyCategory (pricesText : Str) (baseKey : Str) : Str :=
  let cat0 := findCategoryInText (splitLines pricesText) (toLowerStr baseKey) []
  if cat0 = [] then keywordCategory (toLowerStr baseKey) else cat0

/-- The product record `importFromPricesTextOnly` builds for a price entry
with no existing product under the slug. -/
def priceOnlyNewProduct (pricesText : Str) (fx margin : ℚ) (baseKey : Str) (usd : ℚ) :
    Product :=
  { pid := 0, slug := [], name := baseKey,
    category := priceOnlyCategory pricesText baseKey,
    brand := (inferBrandModel baseKey).1, modelName := (inferBrandModel baseKey).2,
    grossPrice := usd * fx, marginPct := margin,
    basePrice := usd * fx * (1 + margin / 100), active := true }

/-- The record `importFromPricesTextOnly` re-saves when a product already
exists under the slug: prices refreshed, re-activated, category filled in
only when it was empty. -/
def priceOnlyUpdatedProduct (pricesText : Str) (fx margin : ℚ) (baseKey : Str) (usd : ℚ)
    (p : Product) : Product :=
  { p with grossPrice := usd * fx, marginPct := margin,
           basePrice := usd * fx * (1 + margin / 100), active := true,
           category := if p.category = [] ∧ priceOnlyCategory pricesText baseKey ≠ []
                       then priceOnlyCategory pricesText baseKey else p.category }

/-- The matched branch of `importFromPricesTextOnly`'s loop: product upsert
by slug, then a default variant when the product has none. -/
def priceOnlyMatched (pricesText : Str) (fx margin : ℚ)
    (acc : (Nat × Nat × Nat × Nat) × Store) (baseKey : Str) (usd : ℚ) :
    (Nat × Nat × Nat × Nat) × Store :=
  let found := ucGetBySlug acc.2 (slugify baseKey)
  let up :=
    match found.1 with
    | none =>
      let cr := ucCreateProduct found.2 (priceOnlyNewProduct pricesText fx margin baseKey usd)
      (cr.1, cr.2, true)
    | some p =>
      let cr := ucCreateProduct found.2
        (priceOnlyUpdatedProduct pricesText fx margin baseKey usd p)
      (cr.1, cr.2, false)
  let pRef := up.1
  let st2 := up.2.1
  let counts :=
    if up.2.2 then (acc.1.1 + 1, acc.1.2.1, acc.1.2.2.1, acc.1.2.2.2)
    else (acc.1.1, acc.1.2.1 + 1, acc.1.2.2.1, acc.1.2.2.2)
  let lv := ucListVariants st2 pRef.pid
  if lv.1 = [] then
    let nv : Variant := { vid := 0, productID := pRef.pid, color := [], stock := 10 }
    let cv := ucCreateVariant lv.2 nv
    ((counts.1, counts.2.1, counts.2.2.1 + 1, counts.2.2.2), cv.2)
  else (counts, lv.2)

/-- One price-map entry of `importFromPricesTextOnly`'s loop.  The counter
quadruple is (createdP, updatedP, createdV, updatedV). -/
def priceOnlyStep (pricesText : Str) (fx margin : ℚ) (excel : List Str)
    (acc : (Nat × Nat × Nat × Nat) × Store) (e : Str × ℚ) :
    (Nat × Nat × Nat × Nat) × Store :=
  if excel.contains e.1 then acc
  else if e.2 ≤ 0 then acc
  else priceOnlyMatched pricesText fx margin acc e.1 e.2

/-- Source `importFromPricesTextOnly`. -/
def importFromPricesTextOnly (pm : PriceMap) (pricesText : Str) (fx margin : ℚ)
    (wb : Option Workbook) (st : Store) : (Nat × Nat × Nat × Nat) × Store :=
  let excel := excelBaseKeys wb
  pm.foldl (priceOnlyStep pricesText fx margin excel) ((0, 0, 0, 0), st)

/-- The deterministic (non-OpenAI) branch of `handleAdminImportCSV`: parse
the price text, run the spreadsheet pass, then the price-list-only pass;
the report the handler serializes is the one `importFromXLSXCombined`
stored (the price-only pass runs after it and does not touch it). -/
def fullImportPass (wb : Option Workbook) (pricesText : Str) (fx margin : ℚ)
    (st : Store) : (Nat × Nat × Nat × Nat × Nat) × Store × Option ImportReport :=
  let pm := parseUSDPrices pricesText
  let r1 := importFromXLSXCombined wb pm pricesText fx margin st
  let r2 := importFromPricesTextOnly pm pricesText fx margin wb r1.2.1
  ((r1.1.1 + r2.1.1, r1.1.2.1 + r2.1.2.1, r1.1.2.2.1 + r2.1.2.2.1,
    r1.1.2.2.2.1 + r2.1.2.2.2, r1.1.2.2.2.2), r2.2, r1.2.2)

/-! Theorems. -/

/-- C9.  If the spreadsheet bytes cannot be opened as a workbook,
`importFromXLSXCombined` returns (0,0,0,0,0), stores no report, and issues
no Catalog Store call at all: the returned store (its product list, variant
list, id counter and operation log) is exactly the input store. -/
theorem importFromXLSXCombined_unreadable_aborts
    (pm : PriceMap) (pricesText : Str) (fx margin : ℚ) (st : Store) :
    importFromXLSXCombined none pm pricesText fx margin st = ((0, 0, 0, 0, 0), st, none) := rfl

/-- C5 (counterexample).  The claim states
`removeColorFromName "iPhone 17 Azul Oscuro" = "iPhone 17"`; it is false:
the single-word branch fires first because "oscuro" is itself in the color
vocabulary, so only the last word is stripped. -/
theorem removeColorFromName_azulOscuro_counterexample :
    removeColorFromName (s2l "iPhone 17 Azul Oscuro") ≠ s2l "iPhone 17" := by decide

/-- C5 (amended).  The helper strips one trailing recognized color word
(`"Moto G35 Negro" ↦ "Moto G35"`); for `"iPhone 17 Azul Oscuro"` the final
word "Oscuro" is itself a recognized color token, so only that word is
removed, giving `"iPhone 17 Azul"`.  The two-word branch fires only when
the last word alone is not recognized, e.g.
`"Moto Edge 60 Azul Marino" ↦ "Moto Edge 60"`. -/
theorem removeColorFromName_trailing_color_facts :
    removeColorFromName (s2l "Moto G35 Negro") = s2l "Moto G35" ∧
    removeColorFromName (s2l "iPhone 17 Azul Oscuro") = s2l "iPhone 17 Azul" ∧
    removeColorFromName (s2l "Moto Edge 60 Azul Marino") = s2l "Moto Edge 60" := by decide

/-- C4 (counterexample).  The normalizer is not idempotent on every string:
on `"1.5'"` the first pass turns the apostrophe into an inch mark, and the
second pass's decimal-inch rewrite then truncates `1.5"` to `1"`. -/
theorem normalizeBaseKey_not_idempotent :
    normalizeBaseKey (normalizeBaseKey (s2l "1.5'")) ≠ normalizeBaseKey (s2l "1.5'") := by
  decide

/-- The sampled product-name inputs from the specification's examples. -/
def sampledNames : List Str :=
  [s2l "Moto G55 8/256GB 5G DS", s2l "Moto G55 8/256 GB 5G DS", s2l "Moto G35 4G",
   s2l "Moto G35", s2l "Moto G35 Negro", s2l "iPhone 17 Azul Oscuro",
   s2l "iPhone 17 256 GB", s2l "Watch Serie 10 42mm", s2l "Watch Serie 11 42 mm",
   s2l "Macbook Air M4 13\" 16/256 GB (skyblue)"]

/-- C4 (amended).  `normalizeBaseKey` is idempotent on the specification's
sampled inputs (the universal claim fails, see the counterexample: an
apostrophe or a decimal-decimal-inch sequence makes a second pass rewrite
the output again). -/
theorem normalizeBaseKey_idempotent_on_sampled :
    sampledNames.all
      (fun x => normalizeBaseKey (normalizeBaseKey x) == normalizeBaseKey x) = true := by
  decide

/-- A price-list line that is blank after trimming, or whose lower-cased
form contains "sin stock" or "sin precio", leaves the accumulated map
untouched. -/
theorem parsePriceLine_excluded (m : PriceMap) (ln : Str)
    (h : trimSpace ln = [] ∨
      containsStr (toLowerStr (trimSpace ln)) (s2l "sin stock") = true ∨
      containsStr (toLowerStr (trimSpace ln)) (s2l "sin precio") = true) :
    parsePriceLine m ln = m := by
  rcases h with h | h | h
  · simp [parsePriceLine, h]
  · by_cases he : trimSpace ln = []
    · simp [parsePriceLine, he]
    · simp [parsePriceLine, he, h]
  · by_cases he : trimSpace ln = []
    · simp [parsePriceLine, he]
    · simp [parsePriceLine, he, h]

/-- C6.  `parseUSDPrices` is a total function; it returns the empty map for
empty or all-whitespace input; a line that is blank or contains the
case-insensitive substring "sin stock" or "sin precio" contributes no entry
(deleting such a line from the line list leaves the parsed map unchanged);
and in particular the single line "iPhone 17 256 GB   Sin Stock" parses to
the empty map. -/
theorem parseUSDPrices_exclusion_behavior :
    (∀ t : Str, trimSpace t = [] → parseUSDPrices t = []) ∧
    (∀ (ls₁ ls₂ : List Str) (bad : Str),
      (trimSpace bad = [] ∨
       containsStr (toLowerStr (trimSpace bad)) (s2l "sin stock") = true ∨
       containsStr (toLowerStr (trimSpace bad)) (s2l "sin precio") = true) →
      parsePriceLines (ls₁ ++ bad :: ls₂) = parsePriceLines (ls₁ ++ ls₂)) ∧
    parseUSDPrices (s2l "iPhone 17 256 GB   Sin Stock") = [] := by
  refine ⟨fun t ht => by simp [parseUSDPrices, ht], fun ls₁ ls₂ bad hbad => ?_, by decide⟩
  unfold parsePriceLines
  rw [List.foldl_append, List.foldl_append, List.foldl_cons, parsePriceLine_excluded _ _ hbad]

/-- Witness for C6 at concrete inputs: an all-whitespace text parses to the
empty map, and a "Sin Stock" line inserted between two priced lines does
not change the parsed map. -/
theorem parseUSDPrices_exclusion_behavior_witness :
    parseUSDPrices (s2l "  ") = [] ∧
    parsePriceLines ([s2l "Ipad $100"] ++ s2l "Parlante JBL Sin Stock" :: [s2l "Kindle $200"]) =
      parsePriceLines ([s2l "Ipad $100"] ++ [s2l "Kindle $200"]) :=
  ⟨parseUSDPrices_exclusion_behavior.1 (s2l "  ") (by decide),
   parseUSDPrices_exclusion_behavior.2.1 [s2l "Ipad $100"] [s2l "Kindle $200"]
     (s2l "Parlante JBL Sin Stock") (Or.inr (Or.inl (by decide)))⟩

/-- `insertPrice` keeps every entry's key non-empty and value positive when
the inserted pair satisfies both. -/
theorem insertPrice_inv (m : PriceMap) (k : Str) (v : ℚ)
    (hm : ∀ e ∈ m, e.1 ≠ [] ∧ 0 < e.2) (hk : k ≠ []) (hv : 0 < v) :
    ∀ e ∈ insertPrice m k v, e.1 ≠ [] ∧ 0 < e.2 := by
  intro e he
  unfold insertPrice at he
  split at he
  · rcases List.mem_map.mp he with ⟨a, ha, hae⟩
    by_cases h : a.1 == k
    · have hak : a.1 = k := by simpa using h
      simp [h] at hae
      subst hae
      exact ⟨by rw [hak]; exact hk, hv⟩
    · simp [h] at hae
      subst hae
      exact hm a ha
  · rcases List.mem_append.mp he with h | h
    · exact hm e h
    · simp at h
      subst h
      exact ⟨hk, hv⟩

/-- `parsePriceLine` preserves the key/value invariant: it only ever
inserts under the guard `key != "" && usd > 0`. -/
theorem parsePriceLine_inv (m : PriceMap) (ln : Str)
    (hm : ∀ e ∈ m, e.1 ≠ [] ∧ 0 < e.2) :
    ∀ e ∈ parsePriceLine m ln, e.1 ≠ [] ∧ 0 < e.2 := by
  intro e he
  unfold parsePriceLine at he
  dsimp only at he
  split at he
  · exact hm e he
  · split at he
    · exact hm e he
    · split at he
      · split at he
        · next hcond => exact insertPrice_inv m _ _ hm hcond.1 hcond.2 e he
        · exact hm e he
      · exact hm e he

theorem foldl_parsePriceLine_inv (ls : List Str) :
    ∀ m, (∀ e ∈ m, e.1 ≠ [] ∧ 0 < e.2) →
      ∀ e ∈ ls.foldl parsePriceLine m, e.1 ≠ [] ∧ 0 < e.2 := by
  induction ls with
  | nil => exact fun m hm => hm
  | cons l t ih =>
    intro m hm
    exact ih _ (parsePriceLine_inv m l hm)

/-- C10.  Every entry of the map returned by `parseUSDPrices` has a
non-empty key and a strictly positive value; consequently a Go map read of
0 (the zero value) means exactly "no entry", i.e. the orchestrator's
sentinel `usd <= 0` on a direct lookup holds iff the key is absent. -/
theorem parseUSDPrices_positive_entries (t : Str) :
    (∀ e ∈ parseUSDPrices t, e.1 ≠ [] ∧ 0 < e.2) ∧
    (∀ k : Str, mapGet (parseUSDPrices t) k ≤ 0 ↔ assocFind (parseUSDPrices t) k = none) := by
  have h1 : ∀ e ∈ parseUSDPrices t, e.1 ≠ [] ∧ 0 < e.2 := by
    unfold parseUSDPrices
    split
    · simp
    · exact foldl_parsePriceLine_inv _ _ (by simp)
  refine ⟨h1, fun k => ?_⟩
  unfold mapGet
  cases hf : assocFind (parseUSDPrices t) k with
  | none => simp [hf]
  | some v =>
    simp only [Option.getD_some]
    constructor
    · intro hle
      exfalso
      unfold assocFind at hf
      cases hfe : (parseUSDPrices t).find? (fun e => e.1 == k) with
      | none => simp [hfe] at hf
      | some e =>
        have hmem := List.mem_of_find?_eq_some hfe
        have hpos := (h1 e hmem).2
        simp [hfe] at hf
        rw [hf] at hpos
        exact absurd hle (not_le.mpr hpos)
    · intro h
      cases h

/-- Witness for C10 at a concrete input: the parsed entry of "Ipad $100"
has a non-empty key and a positive price, and the zero-read/absence
equivalence holds for an absent key. -/
theorem parseUSDPrices_positive_entries_witness :
    ((s2l "Ipad", (100 : ℚ)).1 ≠ [] ∧ 0 < ((s2l "Ipad", (100 : ℚ))).2) ∧
    (mapGet (parseUSDPrices (s2l "Ipad $100")) (s2l "Nope") ≤ 0 ↔
      assocFind (parseUSDPrices (s2l "Ipad $100")) (s2l "Nope") = none) :=
  ⟨(parseUSDPrices_positive_entries (s2l "Ipad $100")).1 (s2l "Ipad", 100) (by decide),
   (parseUSDPrices_positive_entries (s2l "Ipad $100")).2 (s2l "Nope")⟩

/-! C8: the four-way unmatch-reason classification.  The `claim…`
definitions below follow the claim's wording (a reference classifier with
four mutually exclusive guards); the theorem shows `detectUnmatchReason`
computes exactly that classifier. -/

/-- Claim predicate: the full base key occurs case-insensitively in the
price text. -/
def claimFullOccurs (b t : Str) : Bool := containsStr (toLowerStr t) (toLowerStr b)

/-- Claim predicate: the base key has at least two tokens and its
first-two-token part occurs case-insensitively in the price text. -/
def claimPrefOccurs (b t : Str) : Bool :=
  decide (2 ≤ (fields b).length) &&
  containsStr (toLowerStr t) (toLowerStr ((fields b).getD 0 [] ++ ' ' :: (fields b).getD 1 []))

/-- Claim predicate: "sin stock" appears within the 150 bytes starting at
the first occurrence of the base key. -/
def claimSinStockNear (b t : Str) : Bool :=
  match idxOf? (toLowerStr b) (toLowerStr t) with
  | some i => containsStr (takeBytes 150 ((toLowerStr t).drop i)) (s2l "sin stock")
  | none => false

/-- The classifier exactly as the claim words it: `no_encontrado` when
neither the full key nor the prefix occurs; `formato_diferente` when the
prefix occurs but the full key does not; `sin_stock` when the full key
occurs with "sin stock" nearby; otherwise `precio_invalido`. -/
def claimUnmatchReason (b t : Str) : Str :=
  if !claimFullOccurs b t && !claimPrefOccurs b t then s2l "no_encontrado"
  else if claimPrefOccurs b t && !claimFullOccurs b t then s2l "formato_diferente"
  else if claimFullOccurs b t && claimSinStockNear b t then s2l "sin_stock"
  else s2l "precio_invalido"

/-- C8.  `detectUnmatchReason` returns exactly one of the four
deterministic reasons, and coincides with the claim's mutually exclusive
classification on every input. -/
theorem detectUnmatchReason_classification (b t : Str) :
    detectUnmatchReason b t = claimUnmatchReason b t ∧
    (detectUnmatchReason b t = s2l "no_encontrado" ∨
     detectUnmatchReason b t = s2l "formato_diferente" ∨
     detectUnmatchReason b t = s2l "sin_stock" ∨
     detectUnmatchReason b t = s2l "precio_invalido") := by
  have heq : detectUnmatchReason b t = claimUnmatchReason b t := by
    unfold detectUnmatchReason claimUnmatchReason claimFullOccurs claimPrefOccurs claimSinStockNear
    by_cases hfull : containsStr (toLowerStr t) (toLowerStr b) = true
    · have hsome : (idxOf? (toLowerStr b) (toLowerStr t)).isSome := hfull
      cases hix : idxOf? (toLowerStr b) (toLowerStr t) with
      | none => rw [hix] at hsome; cases hsome
      | some i =>
        simp only [hfull, hix]
        by_cases hnear : containsStr (takeBytes 150 ((toLowerStr t).drop i)) (s2l "sin stock") = true
        · simp [hnear]
        · simp [hnear, Bool.and_eq_true]
    · have hfull' : containsStr (toLowerStr t) (toLowerStr b) = false := by
        simpa using hfull
      by_cases hp2 : 2 ≤ (fields b).length
      · by_cases hpref : containsStr (toLowerStr t)
            (toLowerStr ((fields b).getD 0 [] ++ ' ' :: (fields b).getD 1 [])) = true
        · simp only [List.getD_eq_getElem?_getD] at hpref
          simp [hfull', hp2, hpref]
        · simp only [List.getD_eq_getElem?_getD] at hpref
          simp [hfull', hp2, hpref, Bool.and_eq_true]
      · simp [hfull', hp2]
  refine ⟨heq, ?_⟩
  rw [heq]
  unfold claimUnmatchReason
  split
  · exact Or.inl rfl
  · split
    · exact Or.inr (Or.inl rfl)
    · split
      · exact Or.inr (Or.inr (Or.inl rfl))
      · exact Or.inr (Or.inr (Or.inr rfl))

/-- C7.  If `matchUSDPrice` returns a nonzero price although the exact
tier found nothing (`assocFind m baseKey = none`) and no candidate matches
by comparison form, then it came from a partial-tier candidate for which
the guard held: at least two of the first `min(3,n)` comparison-form tokens
coincide and both 2-3-token signatures are longer than 8 bytes
(`len` in Go); and if additionally no candidate passes the partial test,
the result is 0. -/
theorem matchUSDPrice_tiers (m : PriceMap) (baseKey : Str)
    (hex : assocFind m baseKey = none)
    (hnorm : ∀ e ∈ m, matcherNormalize e.1 ≠ matcherNormalize baseKey) :
    (matchUSDPrice m baseKey ≠ 0 →
      ∃ e ∈ m, matchUSDPrice m baseKey = e.2 ∧
        2 ≤ overlapCount baseKey e.1 ∧
        8 < utf8Len (sigPattern baseKey) ∧ 8 < utf8Len (sigPattern e.1)) ∧
    ((∀ e ∈ m, partialHit baseKey e.1 = false) → matchUSDPrice m baseKey = 0) := by
  have hfind2 : m.find? (fun e => matcherNormalize e.1 == matcherNormalize baseKey) = none := by
    rw [List.find?_eq_none]
    intro e he
    simpa using hnorm e he
  have hm : matchUSDPrice m baseKey =
      (if 2 ≤ (fields (matcherNormalize baseKey)).length then
        match m.find? (fun e => partialHit baseKey e.1) with
        | some e => e.2
        | none => 0
      else 0) := by
    unfold matchUSDPrice
    rw [hex]
    dsimp only
    rw [hfind2]
  rw [hm]
  by_cases hlen : 2 ≤ (fields (matcherNormalize baseKey)).length
  · rw [if_pos hlen]
    cases hf : m.find? (fun e => partialHit baseKey e.1) with
    | none =>
      constructor
      · intro hne
        exact absurd rfl hne
      · intro _
        rfl
    | some e =>
      constructor
      · intro hne
        have hph := List.find?_some hf
        simp only [partialHit, Bool.and_eq_true, decide_eq_true_eq] at hph
        obtain ⟨-, -, ⟨hC, hD⟩, hE⟩ := hph
        exact ⟨e, List.mem_of_find?_eq_some hf, rfl, hC, hD, hE⟩
      · intro hall
        have hph := List.find?_some hf
        rw [hall e (List.mem_of_find?_eq_some hf)] at hph
        cases hph
  · rw [if_neg hlen]
    exact ⟨fun hne => absurd rfl hne, fun _ => rfl⟩

/-- Witness for C7 at a concrete map and query that reaches the partial
tier (exact and normalized tiers both fail). -/
theorem matchUSDPrice_tiers_witness :
    (matchUSDPrice [(s2l "abcdefg 123", 7)] (s2l "abcdefg 123 zz") ≠ 0 →
      ∃ e ∈ [(s2l "abcdefg 123", (7 : ℚ))],
        matchUSDPrice [(s2l "abcdefg 123", 7)] (s2l "abcdefg 123 zz") = e.2 ∧
        2 ≤ overlapCount (s2l "abcdefg 123 zz") e.1 ∧
        8 < utf8Len (sigPattern (s2l "abcdefg 123 zz")) ∧ 8 < utf8Len (sigPattern e.1)) ∧
    ((∀ e ∈ [(s2l "abcdefg 123", (7 : ℚ))],
        partialHit (s2l "abcdefg 123 zz") e.1 = false) →
      matchUSDPrice [(s2l "abcdefg 123", 7)] (s2l "abcdefg 123 zz") = 0) :=
  matchUSDPrice_tiers [(s2l "abcdefg 123", 7)] (s2l "abcdefg 123 zz") (by decide) (by decide)

/-! Helper lemmas for the row-level and store-level theorems. -/

theorem trimSpace_rdrop (l : Str) :
    trimSpace l = List.rdropWhile goIsSpace (List.dropWhile goIsSpace l) := rfl

theorem trimSpace_idem (s : Str) : trimSpace (trimSpace s) = trimSpace s := by
  rw [trimSpace_rdrop, trimSpace_rdrop]
  have h1 : List.dropWhile goIsSpace
      (List.rdropWhile goIsSpace (List.dropWhile goIsSpace s)) =
      List.rdropWhile goIsSpace (List.dropWhile goIsSpace s) := by
    rcases List.rdropWhile_prefix goIsSpace (List.dropWhile goIsSpace s) with ⟨t, ht⟩
    cases hv : List.rdropWhile goIsSpace (List.dropWhile goIsSpace s) with
    | nil => simp
    | cons a w =>
      rw [hv] at ht
      have hu_eq : List.dropWhile goIsSpace s = a :: (w ++ t) := by
        rw [← ht]; rfl
      have hfix : List.dropWhile goIsSpace (List.dropWhile goIsSpace s) =
          List.dropWhile goIsSpace s := List.dropWhile_idempotent _ _
      rw [hu_eq] at hfix
      by_cases hpa : goIsSpace a = true
      · rw [List.dropWhile_cons, if_pos hpa] at hfix
        have hle := (List.dropWhile_suffix (l := w ++ t) goIsSpace).length_le
        rw [hfix] at hle
        simp at hle
      · rw [List.dropWhile_cons, if_neg hpa]
  rw [h1, List.rdropWhile_idempotent]

theorem mapStock_nonneg (s : Str) : 0 ≤ mapStock s := by
  unfold mapStock
  dsimp only
  split_ifs <;> decide

theorem repoSaveVariant_mem_vid (st : Store) (v w : Variant)
    (hw : w ∈ (repoSaveVariant st v).variants) (hvid : w.vid = v.vid) : w = v := by
  by_cases h : st.variants.any (fun q => q.vid == v.vid)
  · simp only [repoSaveVariant, if_pos h] at hw
    rcases List.mem_map.mp hw with ⟨q, hq, heq⟩
    by_cases hqv : q.vid == v.vid
    · rw [if_pos hqv] at heq
      exact heq.symm
    · rw [if_neg hqv] at heq
      subst heq
      exact absurd (by simp [hvid]) hqv
  · simp only [repoSaveVariant, if_neg h] at hw
    rcases List.mem_append.mp hw with h1 | h1
    · exfalso
      apply h
      rw [List.any_eq_true]
      exact ⟨w, h1, by simp [hvid]⟩
    · simpa using h1

theorem ucUpdateVariant_mem_vid (st : Store) (v w : Variant) (hv : v.vid ≠ 0)
    (hw : w ∈ (ucUpdateVariant st v).variants) (hvid : w.vid = v.vid) : w = v := by
  unfold ucUpdateVariant at hw
  rw [if_neg hv] at hw
  exact repoSaveVariant_mem_vid st v w hw hvid

theorem rowStockStr_trim_fixed (row : Row) :
    trimSpace (rowStockStr row) = rowStockStr row := by
  unfold rowStockStr
  dsimp only
  split
  · exact trimSpace_idem _
  · exact trimSpace_idem _

theorem goIsSpace_toLowerCh (c : Char) : goIsSpace (toLowerCh c) = goIsSpace c := by
  have hfact : ∀ q ∈ upperLowerPairs, goIsSpace q.2 = false ∧ goIsSpace q.1 = false := by
    decide
  unfold toLowerCh
  cases hf : upperLowerPairs.find? (fun pr => pr.1 == c) with
  | none => rfl
  | some pr =>
    have hmem := List.mem_of_find?_eq_some hf
    have hc : pr.1 = c := by simpa using List.find?_some hf
    show goIsSpace pr.2 = goIsSpace c
    rw [(hfact pr hmem).1, ← hc, (hfact pr hmem).2]

theorem trimSpace_eq_nil_iff (l : Str) :
    trimSpace l = [] ↔ ∀ c ∈ l, goIsSpace c = true := by
  rw [trimSpace_rdrop, List.rdropWhile_eq_nil_iff]
  constructor
  · intro h c hc
    rcases List.mem_append.mp ((List.takeWhile_append_dropWhile (p := goIsSpace) (l := l)) ▸ hc) with
      h1 | h1
    · exact List.mem_takeWhile_imp h1
    · exact h c h1
  · intro h c hc
    exact h c (List.IsSuffix.subset (List.dropWhile_suffix _) hc)

/-- C2.  For a spreadsheet row that reaches the upsert path (not empty,
not a section title, not the "Color" header) with a positive matched price,
and whose color matches an existing variant `ev` of the upserted product
(case-insensitive, trimmed comparison — `ev` is the variant the row loop
finds): after the row's upsert the variant's stock is unchanged when the
row's stock cell (column D, else E) is empty after trimming, and is
`mapStock` of the cell otherwise; and `mapStock` maps a value containing
"sin" (lower-cased) to 0, else one containing "bajo" to 2, and any other
non-empty value to 10. -/
theorem stepRow_stock_rule (pm : PriceMap) (pricesText : Str) (fx margin : ℚ)
    (ps : PassState) (st : Store) (row : Row) (ev : Variant)
    (hrow : row ≠ [])
    (htitle : isSectionTitle (rowName row) = false)
    (hname : rowName row ≠ [])
    (hhdr : equalFold (trimSpace (row.getD 2 [])) (s2l "Color") = false)
    (husd : ¬ rowUSD pm row ≤ 0)
    (hev : ((ucListVariants
        (rowProductUpsert st (rowBaseKey row) ps.category (rowUSD pm row * fx) margin
          (rowUSD pm row * fx * (1 + margin / 100))).2.1
        (rowProductUpsert st (rowBaseKey row) ps.category (rowUSD pm row * fx) margin
          (rowUSD pm row * fx * (1 + margin / 100))).1.pid).1.find?
        (fun v => equalFold (trimSpace v.color) (trimSpace (rowColor row))) = some ev))
    (hvid : ev.vid ≠ 0) :
    (∀ w ∈ (stepRow pm pricesText fx margin (ps, st) row).2.variants, w.vid = ev.vid →
      w.stock = (if rowStockStr row = [] then ev.stock else mapStock (rowStockStr row))) ∧
    (containsStr (trimSpace (toLowerStr (rowStockStr row))) (s2l "sin") = true →
      mapStock (rowStockStr row) = 0) ∧
    (containsStr (trimSpace (toLowerStr (rowStockStr row))) (s2l "sin") = false →
      containsStr (trimSpace (toLowerStr (rowStockStr row))) (s2l "bajo") = true →
      mapStock (rowStockStr row) = 2) ∧
    (rowStockStr row ≠ [] →
      containsStr (trimSpace (toLowerStr (rowStockStr row))) (s2l "sin") = false →
      containsStr (trimSpace (toLowerStr (rowStockStr row))) (s2l "bajo") = false →
      mapStock (rowStockStr row) = 10) := by
  have hstfix := rowStockStr_trim_fixed row
  have hsin : containsStr (trimSpace (toLowerStr (rowStockStr row))) (s2l "sin") = true →
      mapStock (rowStockStr row) = 0 := by
    intro h
    unfold mapStock
    by_cases ht : trimSpace (toLowerStr (rowStockStr row)) = []
    · simp [ht]
    · simp [ht, h]
  have hbajo : containsStr (trimSpace (toLowerStr (rowStockStr row))) (s2l "sin") = false →
      containsStr (trimSpace (toLowerStr (rowStockStr row))) (s2l "bajo") = true →
      mapStock (rowStockStr row) = 2 := by
    intro hs hb
    unfold mapStock
    by_cases ht : trimSpace (toLowerStr (rowStockStr row)) = []
    · rw [ht] at hb
      exact absurd hb (by decide)
    · simp [ht, hs, hb]
  have h10 : rowStockStr row ≠ [] →
      containsStr (trimSpace (toLowerStr (rowStockStr row))) (s2l "sin") = false →
      containsStr (trimSpace (toLowerStr (rowStockStr row))) (s2l "bajo") = false →
      mapStock (rowStockStr row) = 10 := by
    intro hne hs hb
    unfold mapStock
    by_cases ht : trimSpace (toLowerStr (rowStockStr row)) = []
    · exfalso
      apply hne
      have hall := (trimSpace_eq_nil_iff _).mp ht
      have hall2 : ∀ c ∈ rowStockStr row, goIsSpace c = true := by
        intro c hc
        have := hall (toLowerCh c) (List.mem_map_of_mem _ hc)
        rwa [goIsSpace_toLowerCh] at this
      have h0 := (trimSpace_eq_nil_iff (rowStockStr row)).mpr hall2
      rwa [hstfix] at h0
    · simp [ht, hs, hb]
  refine ⟨?_, hsin, hbajo, h10⟩
  intro w hw hwvid
  unfold stepRow at hw
  rw [if_neg hrow] at hw
  rw [if_neg (show ¬ isSectionTitle (rowName row) = true from fun h => by
    rw [htitle] at h; cases h)] at hw
  rw [if_neg hname] at hw
  rw [if_neg (show ¬ equalFold (trimSpace (row.getD 2 [])) (s2l "Color") = true from fun h => by
    rw [hhdr] at h; cases h)] at hw
  rw [if_neg husd] at hw
  unfold stepRowMatched at hw
  dsimp only at hw
  rw [hev] at hw
  dsimp only at hw
  by_cases hcond : trimSpace (rowStockStr row) ≠ [] ∧ 0 ≤ mapStock (rowStockStr row)
  · rw [if_pos hcond] at hw
    have hw2 := ucUpdateVariant_mem_vid _ _ _ (show ({ ev with stock := mapStock (rowStockStr row) } : Variant).vid ≠ 0 from hvid) hw hwvid
    rw [hw2]
    rw [hstfix] at hcond
    rw [if_neg hcond.1]
  · rw [if_neg hcond] at hw
    have hw2 := ucUpdateVariant_mem_vid _ _ _ hvid hw hwvid
    rw [hw2]
    rw [hstfix] at hcond
    have hempty : rowStockStr row = [] := by
      by_contra hne
      exact hcond ⟨hne, mapStock_nonneg _⟩
    rw [if_pos hempty]

/-- Concrete fixture for the C2 witness: one product "Ipad 11" with a
variant "Negro" of stock 7, and a row with stock cell "Bajo". -/
def c2Product : Product :=
  { pid := 1, slug := s2l "ipad-11", name := s2l "Ipad 11", category := [],
    brand := [], modelName := [], grossPrice := 0, marginPct := 0,
    basePrice := 0, active := false }

def c2Variant : Variant := { vid := 2, productID := 1, color := s2l "Negro", stock := 7 }

def c2Store : Store :=
  { products := [c2Product], variants := [c2Variant], nextId := 3, log := [] }

def c2Row : Row := [[], s2l "Ipad 11", s2l "Negro", s2l "Bajo"]

def c2Pm : PriceMap := [(s2l "Ipad 11", 100)]

/-- Witness for C2 at the concrete fixture: the row carries the stock cell
"Bajo", so the existing "Negro" variant's stock becomes `mapStock "Bajo"`,
which is 2. -/
theorem stepRow_stock_rule_witness :
    ((⟨2, 1, s2l "Negro", 2⟩ : Variant).stock =
      (if rowStockStr c2Row = [] then c2Variant.stock else mapStock (rowStockStr c2Row))) ∧
    mapStock (rowStockStr c2Row) = 2 :=
  have h := stepRow_stock_rule c2Pm [] 1 0 emptyPassState c2Store c2Row c2Variant
    (by decide) (by decide) (by decide) (by decide) (by decide) (by decide) (by decide)
  ⟨h.1 ⟨2, 1, s2l "Negro", 2⟩ (by decide) (by decide),
   h.2.2.1 (by decide) (by decide)⟩
/-- The pointwise effect of one sweep entry `(productID, processedColors)`
on a stored variant. -/
def zeroEntry (e : Nat × List Str) (v : Variant) : Variant :=
  if v.productID = e.1 ∧ e.2.contains (toLowerStr (trimSpace v.color)) = false then
    { v with stock := 0 }
  else v

/-- The inner fold of the sweep: updating each snapshot variant whose color
key is not in `colors` zeroes exactly those variants, and touches neither
products nor the id counter. -/
theorem sweepFold (colors : List Str) :
    ∀ (L : List Variant) (st : Store),
      (∀ v ∈ L, v ∈ st.variants) →
      (∀ v ∈ st.variants, v.vid ≠ 0) →
      (st.variants.map (fun v => v.vid)).Nodup →
      L.Pairwise (fun a b => a.vid ≠ b.vid) →
      (L.foldl (sweepVariant colors) st).variants =
        st.variants.map (fun v =>
          if L.any (fun w => w.vid == v.vid) = true ∧
              colors.contains (toLowerStr (trimSpace v.color)) = false
          then { v with stock := 0 } else v) ∧
      (L.foldl (sweepVariant colors) st).products = st.products ∧
      (L.foldl (sweepVariant colors) st).nextId = st.nextId := by
  intro L
  induction L with
  | nil =>
    intro st _ _ _ _
    refine ⟨?_, rfl, rfl⟩
    rw [List.foldl_nil]
    conv_lhs => rw [← List.map_id st.variants]
    apply List.map_congr_left
    intro v _
    simp
  | cons w L' ih =>
    intro st hsub hvid hnd hpw
    have hwst : w ∈ st.variants := hsub w (List.mem_cons_self _ _)
    have hpw' : L'.Pairwise (fun a b => a.vid ≠ b.vid) := hpw.of_cons
    have hwne : ∀ v ∈ L', w.vid ≠ v.vid := fun v hv => List.rel_of_pairwise_cons hpw hv
    have hinj := List.inj_on_of_nodup_map hnd
    rw [List.foldl_cons]
    by_cases hcol : colors.contains (toLowerStr (trimSpace w.color)) = true
    · have hst : sweepVariant colors st w = st := by
        unfold sweepVariant
        rw [if_pos hcol]
      rw [hst]
      obtain ⟨h1, h2, h3⟩ := ih st (fun v hv => hsub v (List.mem_cons_of_mem _ hv)) hvid hnd hpw'
      refine ⟨?_, h2, h3⟩
      rw [h1]
      apply List.map_congr_left
      intro v hv
      by_cases hvw : (w.vid == v.vid) = true
      · have hvv : v.vid = w.vid := by
          have : w.vid = v.vid := by simpa using hvw
          exact this.symm
        have hveq : v = w := hinj hv hwst hvv
        subst hveq
        have hany : L'.any (fun q => q.vid == v.vid) = false := by
          rw [List.any_eq_false]
          intro q hq
          simp only [beq_iff_eq]
          exact fun hh => (hwne q hq) ((hh.trans hvv).symm)
        rw [if_neg (fun hc => by rw [hany] at hc; cases hc.1)]
        rw [if_neg (fun hc => by
          have := hc.2
          rw [List.any_cons] at hc
          rw [hcol] at this
          cases this)]
      · simp only [List.any_cons, hvw, Bool.false_or]
    · have hcolf : colors.contains (toLowerStr (trimSpace w.color)) = false := by
        simpa using hcol
      have hst : sweepVariant colors st w = ucUpdateVariant st { w with stock := 0 } := by
        unfold sweepVariant
        rw [if_neg hcol]
      have hvar' : (sweepVariant colors st w).variants =
          st.variants.map (fun q => if q.vid == w.vid then { w with stock := 0 } else q) := by
        rw [hst]
        unfold ucUpdateVariant
        rw [if_neg (show ¬ ({ w with stock := 0 } : Variant).vid = 0 from hvid w hwst)]
        unfold repoSaveVariant
        rw [if_pos (by
          rw [List.any_eq_true]
          exact ⟨w, hwst, by simp⟩)]
      have hprod' : (sweepVariant colors st w).products = st.products := by
        rw [hst]
        unfold ucUpdateVariant
        split
        · rfl
        · unfold repoSaveVariant
          split
          · rfl
          · rfl
      have hnext' : (sweepVariant colors st w).nextId = st.nextId := by
        rw [hst]
        unfold ucUpdateVariant
        split
        · rfl
        · unfold repoSaveVariant
          split
          · rfl
          · rfl
      have hvids' : (sweepVariant colors st w).variants.map (fun v => v.vid) =
          st.variants.map (fun v => v.vid) := by
        rw [hvar', List.map_map]
        apply List.map_congr_left
        intro q _
        by_cases hq : (q.vid == w.vid) = true
        · simp only [Function.comp_apply]
          rw [if_pos hq]
          have hqw : q.vid = w.vid := by simpa using hq
          exact hqw.symm
        · simp only [Function.comp_apply]
          rw [if_neg hq]
      have hsub' : ∀ v ∈ L', v ∈ (sweepVariant colors st w).variants := by
        intro v hv
        rw [hvar']
        have hvst := hsub v (List.mem_cons_of_mem _ hv)
        refine List.mem_map.mpr ⟨v, hvst, ?_⟩
        rw [if_neg (by
          simp only [beq_iff_eq]
          exact fun hh => (hwne v hv) hh.symm)]
      have hvid' : ∀ v ∈ (sweepVariant colors st w).variants, v.vid ≠ 0 := by
        intro v hv
        rw [hvar'] at hv
        rcases List.mem_map.mp hv with ⟨q, hq, hqe⟩
        by_cases hqv : (q.vid == w.vid) = true
        · rw [if_pos hqv] at hqe
          rw [← hqe]
          exact hvid w hwst
        · rw [if_neg hqv] at hqe
          rw [← hqe]
          exact hvid q hq
      have hnd' : ((sweepVariant colors st w).variants.map (fun v => v.vid)).Nodup := by
        rw [hvids']
        exact hnd
      obtain ⟨h1, h2, h3⟩ := ih (sweepVariant colors st w) hsub' hvid' hnd' hpw'
      refine ⟨?_, by rw [h2, hprod'], by rw [h3, hnext']⟩
      rw [h1, hvar', List.map_map]
      apply List.map_congr_left
      intro v hv
      simp only [Function.comp_apply]
      by_cases hvw : (v.vid == w.vid) = true
      · have hveq : v = w := hinj hv hwst (by simpa using hvw)
        rw [if_pos hvw]
        have hany : L'.any (fun q => q.vid == ({ w with stock := 0 } : Variant).vid) = false := by
          rw [List.any_eq_false]
          intro q hq
          simp only [beq_iff_eq]
          exact fun hh => (hwne q hq) hh.symm
        rw [if_neg (fun hc => by rw [hany] at hc; cases hc.1)]
        have hcondr : ((w :: L').any (fun q => q.vid == v.vid) = true ∧
            colors.contains (toLowerStr (trimSpace v.color)) = false) := by
          constructor
          · rw [List.any_cons]
            have hwv : (w.vid == v.vid) = true := by
              simp only [beq_iff_eq]
              have : v.vid = w.vid := by simpa using hvw
              exact this.symm
            rw [hwv, Bool.true_or]
          · rw [hveq]
            exact hcolf
        rw [if_pos hcondr, hveq]
      · rw [if_neg hvw]
        have hwv : (w.vid == v.vid) = false := by
          simp only [beq_eq_false_iff_ne, ne_eq]
          intro hh
          apply hvw
          simp only [beq_iff_eq]
          exact hh.symm
        simp only [List.any_cons, hwv, Bool.false_or]



/-- One sweep entry rewrites the variant list pointwise by `zeroEntry`. -/
theorem sweepEntry_variants (st : Store) (e : Nat × List Str)
    (hvid : ∀ v ∈ st.variants, v.vid ≠ 0)
    (hnd : (st.variants.map (fun v => v.vid)).Nodup)
    (hpid : e.1 ≠ 0) :
    (sweepEntry st e).variants = st.variants.map (zeroEntry e) ∧
    (sweepEntry st e).products = st.products ∧
    (sweepEntry st e).nextId = st.nextId := by
  unfold sweepEntry ucListVariants
  rw [if_neg hpid]
  unfold repoListVariants
  dsimp only
  have hinj := List.inj_on_of_nodup_map hnd
  have hsub : ∀ v ∈ st.variants.filter (fun v => v.productID == e.1),
      v ∈ st.variants := fun v hv => List.mem_of_mem_filter hv
  have hnodf : ((st.variants.filter (fun v => v.productID == e.1)).map
      (fun v => v.vid)).Nodup :=
    List.Nodup.sublist (List.Sublist.map _ (List.filter_sublist _)) hnd
  have hpw : (st.variants.filter (fun v => v.productID == e.1)).Pairwise
      (fun a b => a.vid ≠ b.vid) := List.pairwise_map.mp hnodf
  obtain ⟨h1, h2, h3⟩ := sweepFold e.2 (st.variants.filter (fun v => v.productID == e.1))
    { st with log := st.log ++ [StoreOp.listVariants e.1] }
    hsub hvid hnd hpw
  refine ⟨?_, h2, h3⟩
  rw [h1]
  apply List.map_congr_left
  intro v hv
  unfold zeroEntry
  by_cases hprod : v.productID = e.1
  · have hany : ((st.variants.filter (fun v => v.productID == e.1)).any
        (fun w => w.vid == v.vid)) = true := by
      rw [List.any_eq_true]
      exact ⟨v, List.mem_filter.mpr ⟨hv, by simpa using hprod⟩, by simp⟩
    by_cases hcol : e.2.contains (toLowerStr (trimSpace v.color)) = false
    · rw [if_pos ⟨hany, hcol⟩, if_pos ⟨hprod, hcol⟩]
    · rw [if_neg (fun hc => hcol hc.2), if_neg (fun hc => hcol hc.2)]
  · have hany : ((st.variants.filter (fun v => v.productID == e.1)).any
        (fun w => w.vid == v.vid)) = false := by
      rw [List.any_eq_false]
      intro w hw
      simp only [beq_iff_eq]
      intro hh
      have hwv : w = v := hinj (List.mem_of_mem_filter hw) hv hh
      have := (List.mem_filter.mp hw).2
      rw [hwv] at this
      exact hprod (by simpa using this)
    rw [if_neg (fun hc => by rw [hany] at hc; cases hc.1),
        if_neg (fun hc => hprod hc.1)]

/-- The pointwise effect of the whole sweep. -/
def zeroAll (processed : List (Nat × List Str)) (v : Variant) : Variant :=
  if processed.any (fun e => e.1 == v.productID &&
      !(e.2.contains (toLowerStr (trimSpace v.color)))) = true then
    { v with stock := 0 }
  else v

/-- Composing one entry's effect with the remaining entries' effect. -/
theorem zeroAll_step (e : Nat × List Str) (rest : List (Nat × List Str)) (v : Variant) :
    zeroAll rest (zeroEntry e v) = zeroAll (e :: rest) v := by
  unfold zeroEntry zeroAll
  by_cases hc : v.productID = e.1 ∧ e.2.contains (toLowerStr (trimSpace v.color)) = false
  · rw [if_pos hc]
    have hhead : (e.1 == v.productID && !(e.2.contains (toLowerStr (trimSpace v.color)))) = true := by
      rw [Bool.and_eq_true]
      exact ⟨by simpa using hc.1.symm, by rw [hc.2]; rfl⟩
    rw [List.any_cons, hhead, Bool.true_or, if_pos rfl]
    dsimp only
    split
    · rfl
    · rfl
  · rw [if_neg hc]
    have hhead : (e.1 == v.productID && !(e.2.contains (toLowerStr (trimSpace v.color)))) = false := by
      rcases Decidable.not_and_iff_or_not.mp hc with h | h
    -- either productID ≠ e.1 or contains ≠ false
      · rw [Bool.and_eq_false_iff]
        left
        simp only [beq_eq_false_iff_ne, ne_eq]
        exact fun hh => h hh.symm
      · rw [Bool.and_eq_false_iff]
        right
        have : e.2.contains (toLowerStr (trimSpace v.color)) = true := by
          cases hcc : e.2.contains (toLowerStr (trimSpace v.color)) with
          | false => exact absurd hcc h
          | true => rfl
        rw [this]
        rfl
    rw [List.any_cons, hhead, Bool.false_or]

/-- "PASO 1.5" characterized: the sweep maps every stored variant through
`zeroAll processed` and leaves products and the id counter alone. -/
theorem stockZeroSweep_variants (processed : List (Nat × List Str)) :
    ∀ (st : Store),
      (∀ v ∈ st.variants, v.vid ≠ 0) →
      ((st.variants.map (fun v => v.vid)).Nodup) →
      (∀ e ∈ processed, e.1 ≠ 0) →
      (stockZeroSweep st processed).variants = st.variants.map (zeroAll processed) ∧
      (stockZeroSweep st processed).products = st.products ∧
      (stockZeroSweep st processed).nextId = st.nextId := by
  induction processed with
  | nil =>
    intro st _ _ _
    have h0 : stockZeroSweep st [] = st := rfl
    rw [h0]
    refine ⟨?_, rfl, rfl⟩
    conv_lhs => rw [← List.map_id st.variants]
    apply List.map_congr_left
    intro v _
    simp [zeroAll]
  | cons e rest ih =>
    intro st hvid hnd hp
    have hpe : e.1 ≠ 0 := hp e (List.mem_cons_self _ _)
    obtain ⟨he1, he2, he3⟩ := sweepEntry_variants st e hvid hnd hpe
    have hvids : (sweepEntry st e).variants.map (fun v => v.vid) =
        st.variants.map (fun v => v.vid) := by
      rw [he1, List.map_map]
      apply List.map_congr_left
      intro v _
      simp only [Function.comp_apply]
      unfold zeroEntry
      split
      · rfl
      · rfl
    have hvid' : ∀ v ∈ (sweepEntry st e).variants, v.vid ≠ 0 := by
      intro v hv
      rw [he1] at hv
      rcases List.mem_map.mp hv with ⟨q, hq, hqe⟩
      have : (zeroEntry e q).vid = q.vid := by
        unfold zeroEntry
        split
        · rfl
        · rfl
      rw [← hqe, this]
      exact hvid q hq
    have hnd' : ((sweepEntry st e).variants.map (fun v => v.vid)).Nodup := by
      rw [hvids]
      exact hnd
    have hstep : stockZeroSweep st (e :: rest) = stockZeroSweep (sweepEntry st e) rest := by
      unfold stockZeroSweep
      rw [List.foldl_cons]
    rw [hstep]
    obtain ⟨h1, h2, h3⟩ := ih (sweepEntry st e) hvid' hnd'
      (fun q hq => hp q (List.mem_cons_of_mem _ hq))
    refine ⟨?_, by rw [h2, he2], by rw [h3, he3]⟩
    rw [h1, he1, List.map_map]
    apply List.map_congr_left
    intro v _
    simp only [Function.comp_apply]
    exact zeroAll_step e rest v



/-- C3.  After the stock-zero sweep, for every product entry
`(pid, colors)` of the processed map, each stored variant of that product
whose lower-cased trimmed color is not among the processed colors has stock
0; and every variant of a product not in the processed map is untouched
(its exact record is still present). -/
theorem stockZeroSweep_rule (st : Store) (processed : List (Nat × List Str))
    (hvid : ∀ v ∈ st.variants, v.vid ≠ 0)
    (hnd : (st.variants.map (fun v => v.vid)).Nodup)
    (hp : ∀ e ∈ processed, e.1 ≠ 0) :
    (∀ pid colors, (pid, colors) ∈ processed →
      ∀ v ∈ (stockZeroSweep st processed).variants, v.productID = pid →
        colors.contains (toLowerStr (trimSpace v.color)) = false → v.stock = 0) ∧
    (∀ v ∈ st.variants, v.productID ∉ processed.map Prod.fst →
      v ∈ (stockZeroSweep st processed).variants) := by
  obtain ⟨h1, -, -⟩ := stockZeroSweep_variants processed st hvid hnd hp
  constructor
  · intro pid colors hmem v hv hvp hvc
    rw [h1] at hv
    rcases List.mem_map.mp hv with ⟨q, hq, hqe⟩
    unfold zeroAll at hqe
    by_cases hc : (processed.any (fun e => e.1 == q.productID &&
        !(e.2.contains (toLowerStr (trimSpace q.color))))) = true
    · rw [if_pos hc] at hqe
      rw [← hqe]
    · rw [if_neg hc] at hqe
      subst hqe
      exfalso
      apply hc
      rw [List.any_eq_true]
      refine ⟨(pid, colors), hmem, ?_⟩
      rw [Bool.and_eq_true]
      exact ⟨by simpa using hvp.symm, by rw [hvc]; rfl⟩
  · intro v hv hnp
    rw [h1]
    refine List.mem_map.mpr ⟨v, hv, ?_⟩
    unfold zeroAll
    have hany : processed.any (fun e => e.1 == v.productID &&
        !(e.2.contains (toLowerStr (trimSpace v.color)))) = false := by
      rw [List.any_eq_false]
      intro e he hcontra
      rw [Bool.and_eq_true] at hcontra
      have he1 : e.1 = v.productID := by simpa using hcontra.1
      exact hnp (List.mem_map.mpr ⟨e, he, he1⟩)
    rw [if_neg (by rw [hany]; exact Bool.false_ne_true)]

/-- Witness for C3: product 5 was processed with color key "negro" only,
so its "Azul" variant's stock is forced to 0, while product 6's variant is
untouched. -/
theorem stockZeroSweep_rule_witness :
    ((⟨2, 5, s2l "Azul", 0⟩ : Variant).stock = 0) ∧
    ((⟨3, 6, s2l "Rojo", 9⟩ : Variant) ∈
      (stockZeroSweep
        { products := [], nextId := 10, log := [],
          variants := [⟨1, 5, s2l "Negro", 7⟩, ⟨2, 5, s2l "Azul", 7⟩, ⟨3, 6, s2l "Rojo", 9⟩] }
        [(5, [s2l "negro"])]).variants) :=
  have h := stockZeroSweep_rule
    { products := [], nextId := 10, log := [],
      variants := [⟨1, 5, s2l "Negro", 7⟩, ⟨2, 5, s2l "Azul", 7⟩, ⟨3, 6, s2l "Rojo", 9⟩] }
    [(5, [s2l "negro"])]
    (by decide) (by decide) (by decide)
  ⟨h.1 5 [s2l "negro"] (by decide) ⟨2, 5, s2l "Azul", 0⟩ (by decide) (by decide) (by decide),
   h.2 ⟨3, 6, s2l "Rojo", 9⟩ (by decide) (by decide)⟩


end SalesCell

namespace SalesCell

def markInactive (p : Product) : Product := { p with active := false }

/-- Well-formedness of the store's product table: a positive id counter,
nonzero bounded ids, and unique ids and slugs (primary key and unique
index). -/
def WFP (st : Store) : Prop :=
  0 < st.nextId ∧
  (∀ p ∈ st.products, p.pid ≠ 0 ∧ p.pid < st.nextId) ∧
  (st.products.map (fun p => p.pid)).Nodup ∧
  (st.products.map (fun p => p.slug)).Nodup

/-- The pass invariant relative to the marked initial product records `A`:
well-formedness; every product saved during the pass is active and carries
the slug recomputed from its name; every unsaved product is one of the
marked originals, and every unsaved marked original is still present;
saved ids always have a record. -/
def InvP (A : List Product) (st : Store) : Prop :=
  WFP st ∧
  (∀ q ∈ st.products, q.pid ∈ savedPids st.log → q.active = true) ∧
  (∀ q ∈ st.products, q.pid ∉ savedPids st.log → q ∈ A) ∧
  (∀ p ∈ A, p.pid ∉ savedPids st.log → p ∈ st.products) ∧
  (∀ q ∈ st.products, q.pid ∈ savedPids st.log → q.slug = computeSlug q.name) ∧
  (∀ pid ∈ savedPids st.log, ∃ q ∈ st.products, q.pid = pid)

theorem savedPids_append (l l' : List StoreOp) :
    savedPids (l ++ l') = savedPids l ++ savedPids l' := List.filterMap_append l l' _

/-- Store transitions that do not touch products, the id counter downward,
or product saves, preserve the invariant. -/
theorem InvP_mono (A : List Product) (st st' : Store)
    (hprod : st'.products = st.products)
    (hsp : savedPids st'.log = savedPids st.log)
    (hnext : st.nextId ≤ st'.nextId)
    (hInv : InvP A st) : InvP A st' := by
  obtain ⟨⟨hpos, hb, hndp, hnds⟩, h1, h2, h3, h4, h5⟩ := hInv
  refine ⟨⟨lt_of_lt_of_le hpos hnext, ?_, ?_, ?_⟩, ?_, ?_, ?_, ?_, ?_⟩
  · intro p hp
    rw [hprod] at hp
    exact ⟨(hb p hp).1, lt_of_lt_of_le (hb p hp).2 hnext⟩
  · rw [hprod]; exact hndp
  · rw [hprod]; exact hnds
  · intro q hq hsq
    rw [hprod] at hq
    rw [hsp] at hsq
    exact h1 q hq hsq
  · intro q hq hsq
    rw [hprod] at hq
    rw [hsp] at hsq
    exact h2 q hq hsq
  · intro p hp hsq
    rw [hsp] at hsq
    rw [hprod]
    exact h3 p hp hsq
  · intro q hq hsq
    rw [hprod] at hq
    rw [hsp] at hsq
    exact h4 q hq hsq
  · intro pid hpid
    rw [hsp] at hpid
    rw [hprod]
    exact h5 pid hpid

theorem ucGetBySlug_state (st : Store) (s : Str) :
    (ucGetBySlug st s).2.products = st.products ∧
    (ucGetBySlug st s).2.variants = st.variants ∧
    (ucGetBySlug st s).2.nextId = st.nextId ∧
    savedPids (ucGetBySlug st s).2.log = savedPids st.log ∧
    st.log <+: (ucGetBySlug st s).2.log := by
  unfold ucGetBySlug
  split
  · exact ⟨rfl, rfl, rfl, rfl, List.prefix_refl _⟩
  · unfold repoFindBySlug
    refine ⟨rfl, rfl, rfl, ?_, ⟨_, rfl⟩⟩
    rw [savedPids_append]
    simp [savedPids]

theorem ucGetBySlug_found (st : Store) (s : Str) (p : Product)
    (h : (ucGetBySlug st s).1 = some p) : p ∈ st.products := by
  unfold ucGetBySlug at h
  split at h
  · cases h
  · unfold repoFindBySlug at h
    exact List.mem_of_find?_eq_some h

end SalesCell

namespace SalesCell

theorem ucCreateProduct_pres (A : List Product) (st : Store) (p : Product)
    (hInv : InvP A st) (hact : p.active = true)
    (hcase : p.pid = 0 ∨ ∃ q ∈ st.products, q.pid = p.pid) :
    InvP A (ucCreateProduct st p).2 ∧
    st.nextId ≤ (ucCreateProduct st p).2.nextId ∧
    st.log <+: (ucCreateProduct st p).2.log ∧
    savedPids st.log <+: savedPids (ucCreateProduct st p).2.log := by
  obtain ⟨⟨hpos, hb, hndp, hnds⟩, h1, h2, h3, h4, h5⟩ := hInv
  rcases hcase with hzero | ⟨q0, hq0, hq0pid⟩
  · have hcu : ucCreateProduct st p =
        ({ p with pid := st.nextId, slug := computeSlug p.name },
         repoSaveProduct { st with nextId := st.nextId + 1 }
           { p with pid := st.nextId, slug := computeSlug p.name }) := by
      unfold ucCreateProduct
      rw [if_pos hzero]
    rw [hcu]
    dsimp only
    by_cases hconf : st.products.any
        (fun q => q.slug == computeSlug p.name && q.pid != st.nextId) = true
    · have hsv : repoSaveProduct { st with nextId := st.nextId + 1 }
          { p with pid := st.nextId, slug := computeSlug p.name } =
          { st with nextId := st.nextId + 1,
                    log := st.log ++ [StoreOp.saveProduct false
                      { p with pid := st.nextId, slug := computeSlug p.name }] } := by
        unfold repoSaveProduct
        dsimp only
        rw [if_pos hconf]
      rw [hsv]
      have hspeq : savedPids (st.log ++ [StoreOp.saveProduct false
          { p with pid := st.nextId, slug := computeSlug p.name }]) = savedPids st.log := by
        rw [savedPids_append]
        simp [savedPids]
      exact ⟨InvP_mono A st _ rfl hspeq (Nat.le_succ _)
          ⟨⟨hpos, hb, hndp, hnds⟩, h1, h2, h3, h4, h5⟩,
        Nat.le_succ _, ⟨_, rfl⟩, by rw [hspeq]⟩
    · have hpidany : st.products.any (fun q => q.pid == st.nextId) = false := by
        rw [List.any_eq_false]
        intro q hq hqe
        have hqn : q.pid = st.nextId := by simpa using hqe
        exact absurd ((hb q hq).2) (by rw [hqn]; exact lt_irrefl _)
      have hsv : repoSaveProduct { st with nextId := st.nextId + 1 }
          { p with pid := st.nextId, slug := computeSlug p.name } =
          { st with nextId := st.nextId + 1,
                    products := st.products ++
                      [{ p with pid := st.nextId, slug := computeSlug p.name }],
                    log := st.log ++ [StoreOp.saveProduct true
                      { p with pid := st.nextId, slug := computeSlug p.name }] } := by
        unfold repoSaveProduct
        dsimp only
        rw [if_neg hconf, if_neg (by rw [hpidany]; exact Bool.false_ne_true)]
      rw [hsv]
      have hsp' : savedPids (st.log ++ [StoreOp.saveProduct true
          { p with pid := st.nextId, slug := computeSlug p.name }]) =
          savedPids st.log ++ [st.nextId] := by
        rw [savedPids_append]
        simp [savedPids]
      have hfresh : st.nextId ∉ st.products.map (fun r => r.pid) := by
        intro hmem
        rcases List.mem_map.mp hmem with ⟨r, hr, hre⟩
        exact absurd ((hb r hr).2) (by rw [hre]; exact lt_irrefl _)
      have hslugnew : computeSlug p.name ∉ st.products.map (fun r => r.slug) := by
        intro hmem
        rcases List.mem_map.mp hmem with ⟨r, hr, hre⟩
        apply hconf
        rw [List.any_eq_true]
        refine ⟨r, hr, ?_⟩
        rw [Bool.and_eq_true]
        constructor
        · simpa using hre
        · simp only [bne_iff_ne, ne_eq]
          intro hh
          exact absurd ((hb r hr).2) (by rw [hh]; exact lt_irrefl _)
      refine ⟨⟨⟨Nat.succ_pos _, ?_, ?_, ?_⟩, ?_, ?_, ?_, ?_, ?_⟩,
        Nat.le_succ _, ⟨_, rfl⟩, by rw [hsp']; exact ⟨_, rfl⟩⟩
      · intro r hr
        rcases List.mem_append.mp hr with hr1 | hr1
        · exact ⟨(hb r hr1).1, Nat.lt_succ_of_lt (hb r hr1).2⟩
        · rw [List.mem_singleton] at hr1
          subst hr1
          exact ⟨Nat.pos_iff_ne_zero.mp hpos, Nat.lt_succ_self _⟩
      · rw [List.map_append, List.nodup_append]
        refine ⟨hndp, List.nodup_singleton _, ?_⟩
        intro a ha hb2
        simp only [List.map_cons, List.map_nil, List.mem_singleton] at hb2
        rw [hb2] at ha
        exact hfresh ha
      · rw [List.map_append, List.nodup_append]
        refine ⟨hnds, List.nodup_singleton _, ?_⟩
        intro a ha hb2
        simp only [List.map_cons, List.map_nil, List.mem_singleton] at hb2
        rw [hb2] at ha
        exact hslugnew ha
      · intro r hr hrs
        rw [hsp'] at hrs
        rcases List.mem_append.mp hr with hr1 | hr1
        · rcases List.mem_append.mp hrs with hrs1 | hrs1
          · exact h1 r hr1 hrs1
          · rw [List.mem_singleton] at hrs1
            exact absurd ((hb r hr1).2) (by rw [hrs1]; exact lt_irrefl _)
        · rw [List.mem_singleton] at hr1
          subst hr1
          exact hact
      · intro r hr hrs
        rw [hsp'] at hrs
        rcases List.mem_append.mp hr with hr1 | hr1
        · exact h2 r hr1 (fun hh => hrs (List.mem_append_left _ hh))
        · rw [List.mem_singleton] at hr1
          subst hr1
          exact absurd (List.mem_append_right _ (List.mem_singleton.mpr rfl)) hrs
      · intro a ha hrs
        rw [hsp'] at hrs
        exact List.mem_append_left _ (h3 a ha (fun hh => hrs (List.mem_append_left _ hh)))
      · intro r hr hrs
        rw [hsp'] at hrs
        rcases List.mem_append.mp hr with hr1 | hr1
        · rcases List.mem_append.mp hrs with hrs1 | hrs1
          · exact h4 r hr1 hrs1
          · rw [List.mem_singleton] at hrs1
            exact absurd ((hb r hr1).2) (by rw [hrs1]; exact lt_irrefl _)
        · rw [List.mem_singleton] at hr1
          subst hr1
          rfl
      · intro pid hpid
        rw [hsp'] at hpid
        rcases List.mem_append.mp hpid with hp1 | hp1
        · rcases h5 pid hp1 with ⟨r, hr, hre⟩
          exact ⟨r, List.mem_append_left _ hr, hre⟩
        · rw [List.mem_singleton] at hp1
          subst hp1
          exact ⟨_, List.mem_append_right _ (List.mem_singleton.mpr rfl), rfl⟩
  · have hpnz : ¬ p.pid = 0 := by
      rw [← hq0pid]
      exact (hb q0 hq0).1
    have hcu : ucCreateProduct st p =
        ({ p with slug := computeSlug p.name },
         repoSaveProduct st { p with slug := computeSlug p.name }) := by
      unfold ucCreateProduct
      rw [if_neg hpnz]
    rw [hcu]
    dsimp only
    by_cases hconf : st.products.any
        (fun q => q.slug == computeSlug p.name && q.pid != p.pid) = true
    · have hsv : repoSaveProduct st { p with slug := computeSlug p.name } =
          { st with log := st.log ++ [StoreOp.saveProduct false
            { p with slug := computeSlug p.name }] } := by
        unfold repoSaveProduct
        dsimp only
        rw [if_pos hconf]
      rw [hsv]
      have hspeq : savedPids (st.log ++ [StoreOp.saveProduct false
          { p with slug := computeSlug p.name }]) = savedPids st.log := by
        rw [savedPids_append]
        simp [savedPids]
      exact ⟨InvP_mono A st _ rfl hspeq (le_refl _)
          ⟨⟨hpos, hb, hndp, hnds⟩, h1, h2, h3, h4, h5⟩,
        le_refl _, ⟨_, rfl⟩, by rw [hspeq]⟩
    · have hpidany : st.products.any (fun q => q.pid == p.pid) = true := by
        rw [List.any_eq_true]
        exact ⟨q0, hq0, by simpa using hq0pid⟩
      have hsv : repoSaveProduct st { p with slug := computeSlug p.name } =
          { st with
              products := st.products.map (fun q =>
                if q.pid == p.pid then { p with slug := computeSlug p.name } else q),
              log := st.log ++ [StoreOp.saveProduct true
                { p with slug := computeSlug p.name }] } := by
        unfold repoSaveProduct
        dsimp only
        rw [if_neg hconf, if_pos hpidany]
      rw [hsv]
      have hsp' : savedPids (st.log ++ [StoreOp.saveProduct true
          { p with slug := computeSlug p.name }]) = savedPids st.log ++ [p.pid] := by
        rw [savedPids_append]
        simp [savedPids]
      have hnoconf : ∀ r ∈ st.products, r.pid ≠ p.pid → r.slug ≠ computeSlug p.name := by
        intro r hr hrp hre
        apply hconf
        rw [List.any_eq_true]
        refine ⟨r, hr, ?_⟩
        rw [Bool.and_eq_true]
        exact ⟨by simpa using hre, by simpa using hrp⟩
      have hfpid : ∀ q : Product,
          ((if q.pid == p.pid then { p with slug := computeSlug p.name } else q) :
            Product).pid = q.pid := by
        intro q
        by_cases hq : (q.pid == p.pid) = true
        · rw [if_pos hq]
          have : q.pid = p.pid := by simpa using hq
          exact this.symm
        · rw [if_neg hq]
      have hpids_eq : ((st.products.map (fun q =>
          if q.pid == p.pid then { p with slug := computeSlug p.name } else q)).map
            (fun r => r.pid)) = st.products.map (fun r => r.pid) := by
        rw [List.map_map]
        apply List.map_congr_left
        intro q _
        exact hfpid q
      refine ⟨⟨⟨hpos, ?_, ?_, ?_⟩, ?_, ?_, ?_, ?_, ?_⟩,
        le_refl _, ⟨_, rfl⟩, by rw [hsp']; exact ⟨_, rfl⟩⟩
      · intro r hr
        rcases List.mem_map.mp hr with ⟨q, hq, hfq⟩
        by_cases hqp : (q.pid == p.pid) = true
        · rw [if_pos hqp] at hfq
          subst hfq
          refine ⟨by simpa using hpnz, ?_⟩
          show p.pid < st.nextId
          rw [← hq0pid]
          exact (hb q0 hq0).2
        · rw [if_neg hqp] at hfq
          subst hfq
          exact hb q hq
      · rw [hpids_eq]
        exact hndp
      · have hpw_pid : st.products.Pairwise (fun a b => a.pid ≠ b.pid) :=
          List.pairwise_map.mp hndp
        have hpw_slug : st.products.Pairwise (fun a b => a.slug ≠ b.slug) :=
          List.pairwise_map.mp hnds
        rw [List.map_map]
        apply List.pairwise_map.mpr
        apply List.Pairwise.imp_of_mem ?_ (hpw_pid.and hpw_slug)
        intro a b ha hb2 hab
        simp only [Function.comp_apply]
        by_cases hap : (a.pid == p.pid) = true
        · rw [if_pos hap]
          by_cases hbp : (b.pid == p.pid) = true
          · exfalso
            apply hab.1
            have h1' : a.pid = p.pid := by simpa using hap
            have h2' : b.pid = p.pid := by simpa using hbp
            rw [h1', h2']
          · rw [if_neg hbp]
            intro hh
            exact (hnoconf b hb2 (by simpa using hbp)) hh.symm
        · rw [if_neg hap]
          by_cases hbp : (b.pid == p.pid) = true
          · rw [if_pos hbp]
            exact hnoconf a ha (by simpa using hap)
          · rw [if_neg hbp]
            exact hab.2
      · intro r hr hrs
        rcases List.mem_map.mp hr with ⟨q, hq, hfq⟩
        by_cases hqp : (q.pid == p.pid) = true
        · rw [if_pos hqp] at hfq
          subst hfq
          exact hact
        · rw [if_neg hqp] at hfq
          subst hfq
          rw [hsp'] at hrs
          rcases List.mem_append.mp hrs with hrs1 | hrs1
          · exact h1 q hq hrs1
          · rw [List.mem_singleton] at hrs1
            exact absurd hrs1 (by simpa using hqp)
      · intro r hr hrs
        rw [hsp'] at hrs
        rcases List.mem_map.mp hr with ⟨q, hq, hfq⟩
        by_cases hqp : (q.pid == p.pid) = true
        · rw [if_pos hqp] at hfq
          subst hfq
          exact absurd (List.mem_append_right _ (List.mem_singleton.mpr rfl)) hrs
        · rw [if_neg hqp] at hfq
          subst hfq
          exact h2 q hq (fun hh => hrs (List.mem_append_left _ hh))
      · intro a ha hrs
        rw [hsp'] at hrs
        have hmem := h3 a ha (fun hh => hrs (List.mem_append_left _ hh))
        refine List.mem_map.mpr ⟨a, hmem, ?_⟩
        rw [if_neg (by
          simp only [beq_iff_eq]
          intro hh
          exact hrs (List.mem_append_right _ (List.mem_singleton.mpr hh)))]
      · intro r hr hrs
        rw [hsp'] at hrs
        rcases List.mem_map.mp hr with ⟨q, hq, hfq⟩
        by_cases hqp : (q.pid == p.pid) = true
        · rw [if_pos hqp] at hfq
          subst hfq
          rfl
        · rw [if_neg hqp] at hfq
          subst hfq
          rcases List.mem_append.mp hrs with hrs1 | hrs1
          · exact h4 q hq hrs1
          · rw [List.mem_singleton] at hrs1
            exact absurd hrs1 (by simpa using hqp)
      · intro pid hpid
        rw [hsp'] at hpid
        rcases List.mem_append.mp hpid with hp1 | hp1
        · rcases h5 pid hp1 with ⟨r, hr, hre⟩
          refine ⟨(if r.pid == p.pid then { p with slug := computeSlug p.name } else r),
            List.mem_map.mpr ⟨r, hr, rfl⟩, ?_⟩
          rw [hfpid r]
          exact hre
        · rw [List.mem_singleton] at hp1
          subst hp1
          refine ⟨{ p with slug := computeSlug p.name },
            List.mem_map.mpr ⟨q0, hq0, ?_⟩, rfl⟩
          rw [if_pos (by simpa using hq0pid)]

end SalesCell

namespace SalesCell

theorem repoSaveVariant_state (st : Store) (v : Variant) :
    (repoSaveVariant st v).products = st.products ∧
    (repoSaveVariant st v).nextId = st.nextId ∧
    savedPids (repoSaveVariant st v).log = savedPids st.log ∧
    st.log <+: (repoSaveVariant st v).log := by
  unfold repoSaveVariant
  split
  · refine ⟨rfl, rfl, ?_, ⟨_, rfl⟩⟩
    rw [savedPids_append]
    simp [savedPids]
  · refine ⟨rfl, rfl, ?_, ⟨_, rfl⟩⟩
    rw [savedPids_append]
    simp [savedPids]

theorem ucCreateVariant_state (st : Store) (v : Variant) :
    (ucCreateVariant st v).2.products = st.products ∧
    st.nextId ≤ (ucCreateVariant st v).2.nextId ∧
    savedPids (ucCreateVariant st v).2.log = savedPids st.log ∧
    st.log <+: (ucCreateVariant st v).2.log := by
  unfold ucCreateVariant
  dsimp only
  split
  · obtain ⟨ha, hb2, hc, hd⟩ := repoSaveVariant_state
      { st with nextId := st.nextId + 1 } { v with vid := st.nextId }
    exact ⟨ha, by rw [hb2]; exact Nat.le_succ _, hc, hd⟩
  · obtain ⟨ha, hb2, hc, hd⟩ := repoSaveVariant_state st v
    exact ⟨ha, le_of_eq hb2.symm, hc, hd⟩

theorem ucUpdateVariant_state (st : Store) (v : Variant) :
    (ucUpdateVariant st v).products = st.products ∧
    (ucUpdateVariant st v).nextId = st.nextId ∧
    savedPids (ucUpdateVariant st v).log = savedPids st.log ∧
    st.log <+: (ucUpdateVariant st v).log := by
  unfold ucUpdateVariant
  split
  · exact ⟨rfl, rfl, rfl, List.prefix_refl _⟩
  · exact repoSaveVariant_state st v

theorem ucListVariants_state (st : Store) (pid : Nat) :
    (ucListVariants st pid).2.products = st.products ∧
    (ucListVariants st pid).2.nextId = st.nextId ∧
    savedPids (ucListVariants st pid).2.log = savedPids st.log ∧
    st.log <+: (ucListVariants st pid).2.log := by
  unfold ucListVariants
  split
  · exact ⟨rfl, rfl, rfl, List.prefix_refl _⟩
  · unfold repoListVariants
    refine ⟨rfl, rfl, ?_, ⟨_, rfl⟩⟩
    rw [savedPids_append]
    simp [savedPids]

theorem repoGetInactiveSlugs_state (st : Store) :
    (repoGetInactiveSlugs st).2.products = st.products ∧
    (repoGetInactiveSlugs st).2.nextId = st.nextId ∧
    savedPids (repoGetInactiveSlugs st).2.log = savedPids st.log ∧
    st.log <+: (repoGetInactiveSlugs st).2.log := by
  unfold repoGetInactiveSlugs
  refine ⟨rfl, rfl, ?_, ⟨_, rfl⟩⟩
  rw [savedPids_append]
  simp [savedPids]

/-- `rowProductUpsert` preserves the pass invariant (the product passed to
`Create` is fresh in the create branch and a found record in the update
branch, and both branches force `active := true`). -/
theorem rowProductUpsert_pres (A : List Product) (st : Store)
    (baseKey category : Str) (g m pr : ℚ)
    (hInv : InvP A st) :
    InvP A (rowProductUpsert st baseKey category g m pr).2.1 ∧
    st.nextId ≤ (rowProductUpsert st baseKey category g m pr).2.1.nextId ∧
    st.log <+: (rowProductUpsert st baseKey category g m pr).2.1.log ∧
    savedPids st.log <+: savedPids (rowProductUpsert st baseKey category g m pr).2.1.log := by
  unfold rowProductUpsert
  dsimp only
  obtain ⟨hgp, hgv, hgn, hgs, hgl⟩ := ucGetBySlug_state st (slugify baseKey)
  have hInv2 : InvP A (ucGetBySlug st (slugify baseKey)).2 :=
    InvP_mono A st _ hgp hgs (le_of_eq hgn.symm) hInv
  cases hfound : (ucGetBySlug st (slugify baseKey)).1 with
  | none =>
    dsimp only
    obtain ⟨hi, hn, hl, hs⟩ := ucCreateProduct_pres A
      (ucGetBySlug st (slugify baseKey)).2
      ({ pid := 0, slug := [], name := baseKey, category := category,
         brand := (inferBrandModel baseKey).1, modelName := (inferBrandModel baseKey).2,
         grossPrice := g, marginPct := m, basePrice := pr, active := true })
      hInv2 rfl (Or.inl rfl)
    refine ⟨hi, ?_, ?_, ?_⟩
    · rw [hgn] at hn
      exact hn
    · exact hgl.trans hl
    · rw [hgs] at hs
      exact hs
  | some p =>
    dsimp only
    have hpmem : p ∈ (ucGetBySlug st (slugify baseKey)).2.products := by
      rw [hgp]
      exact ucGetBySlug_found st (slugify baseKey) p hfound
    obtain ⟨hi, hn, hl, hs⟩ := ucCreateProduct_pres A
      (ucGetBySlug st (slugify baseKey)).2
      ({ p with grossPrice := g, marginPct := m, basePrice := pr, active := true })
      hInv2 rfl (Or.inr ⟨p, hpmem, rfl⟩)
    refine ⟨hi, ?_, ?_, ?_⟩
    · rw [hgn] at hn
      exact hn
    · exact hgl.trans hl
    · rw [hgs] at hs
      exact hs

end SalesCell

namespace SalesCell

theorem stepRowMatched_eq_none (pm : PriceMap) (fx margin : ℚ)
    (ps : PassState) (st : Store) (row : Row)
    (hf : ((ucListVariants
        (rowProductUpsert st (rowBaseKey row) ps.category (rowUSD pm row * fx) margin
          (rowUSD pm row * fx * (1 + margin / 100))).2.1
        (rowProductUpsert st (rowBaseKey row) ps.category (rowUSD pm row * fx) margin
          (rowUSD pm row * fx * (1 + margin / 100))).1.pid).1.find?
        (fun v => equalFold (trimSpace v.color) (trimSpace (rowColor row)))) = none) :
    (stepRowMatched pm fx margin ps st row).2 =
      (ucCreateVariant
        (ucListVariants
          (rowProductUpsert st (rowBaseKey row) ps.category (rowUSD pm row * fx) margin
            (rowUSD pm row * fx * (1 + margin / 100))).2.1
          (rowProductUpsert st (rowBaseKey row) ps.category (rowUSD pm row * fx) margin
            (rowUSD pm row * fx * (1 + margin / 100))).1.pid).2
        { vid := 0,
          productID := (rowProductUpsert st (rowBaseKey row) ps.category (rowUSD pm row * fx)
            margin (rowUSD pm row * fx * (1 + margin / 100))).1.pid,
          color := rowColor row, stock := mapStock (rowStockStr row) }).2 := by
  unfold stepRowMatched
  dsimp only
  rw [hf]

theorem stepRowMatched_eq_some (pm : PriceMap) (fx margin : ℚ)
    (ps : PassState) (st : Store) (row : Row) (ev : Variant)
    (hf : ((ucListVariants
        (rowProductUpsert st (rowBaseKey row) ps.category (rowUSD pm row * fx) margin
          (rowUSD pm row * fx * (1 + margin / 100))).2.1
        (rowProductUpsert st (rowBaseKey row) ps.category (rowUSD pm row * fx) margin
          (rowUSD pm row * fx * (1 + margin / 100))).1.pid).1.find?
        (fun v => equalFold (trimSpace v.color) (trimSpace (rowColor row)))) = some ev) :
    (stepRowMatched pm fx margin ps st row).2 =
      ucUpdateVariant
        (ucListVariants
          (rowProductUpsert st (rowBaseKey row) ps.category (rowUSD pm row * fx) margin
            (rowUSD pm row * fx * (1 + margin / 100))).2.1
          (rowProductUpsert st (rowBaseKey row) ps.category (rowUSD pm row * fx) margin
            (rowUSD pm row * fx * (1 + margin / 100))).1.pid).2
        (if trimSpace (rowStockStr row) ≠ [] ∧ 0 ≤ mapStock (rowStockStr row)
         then { ev with stock := mapStock (rowStockStr row) } else ev) := by
  unfold stepRowMatched
  dsimp only
  rw [hf]

theorem stepRowMatched_pres (A : List Product) (pm : PriceMap) (fx margin : ℚ)
    (ps : PassState) (st : Store) (row : Row)
    (hInv : InvP A st) :
    InvP A (stepRowMatched pm fx margin ps st row).2 ∧
    st.nextId ≤ (stepRowMatched pm fx margin ps st row).2.nextId ∧
    st.log <+: (stepRowMatched pm fx margin ps st row).2.log ∧
    savedPids st.log <+: savedPids (stepRowMatched pm fx margin ps st row).2.log := by
  obtain ⟨hu1, hu2, hu3, hu4⟩ := rowProductUpsert_pres A st (rowBaseKey row)
    ps.category (rowUSD pm row * fx) margin
    (rowUSD pm row * fx * (1 + margin / 100)) hInv
  obtain ⟨hl1, hl2, hl3, hl4⟩ := ucListVariants_state
    (rowProductUpsert st (rowBaseKey row) ps.category (rowUSD pm row * fx) margin
      (rowUSD pm row * fx * (1 + margin / 100))).2.1
    (rowProductUpsert st (rowBaseKey row) ps.category (rowUSD pm row * fx) margin
      (rowUSD pm row * fx * (1 + margin / 100))).1.pid
  have hInvC : InvP A (ucListVariants
      (rowProductUpsert st (rowBaseKey row) ps.category (rowUSD pm row * fx) margin
        (rowUSD pm row * fx * (1 + margin / 100))).2.1
      (rowProductUpsert st (rowBaseKey row) ps.category (rowUSD pm row * fx) margin
        (rowUSD pm row * fx * (1 + margin / 100))).1.pid).2 :=
    InvP_mono A _ _ hl1 hl3 (le_of_eq hl2.symm) hu1
  cases hf : ((ucListVariants
      (rowProductUpsert st (rowBaseKey row) ps.category (rowUSD pm row * fx) margin
        (rowUSD pm row * fx * (1 + margin / 100))).2.1
      (rowProductUpsert st (rowBaseKey row) ps.category (rowUSD pm row * fx) margin
        (rowUSD pm row * fx * (1 + margin / 100))).1.pid).1.find?
      (fun v => equalFold (trimSpace v.color) (trimSpace (rowColor row)))) with
  | none =>
    rw [stepRowMatched_eq_none pm fx margin ps st row hf]
    obtain ⟨hc1, hc2, hc3, hc4⟩ := ucCreateVariant_state
      (ucListVariants
        (rowProductUpsert st (rowBaseKey row) ps.category (rowUSD pm row * fx) margin
          (rowUSD pm row * fx * (1 + margin / 100))).2.1
        (rowProductUpsert st (rowBaseKey row) ps.category (rowUSD pm row * fx) margin
          (rowUSD pm row * fx * (1 + margin / 100))).1.pid).2
      { vid := 0,
        productID := (rowProductUpsert st (rowBaseKey row) ps.category (rowUSD pm row * fx)
          margin (rowUSD pm row * fx * (1 + margin / 100))).1.pid,
        color := rowColor row, stock := mapStock (rowStockStr row) }
    refine ⟨InvP_mono A _ _ hc1 hc3 hc2 hInvC, ?_, ?_, ?_⟩
    · exact le_trans hu2 (le_trans (le_of_eq hl2.symm) hc2)
    · exact (hu3.trans hl4).trans hc4
    · refine List.IsPrefix.trans hu4 ?_
      rw [← hl3]
      rw [← hc3]
  | some ev =>
    rw [stepRowMatched_eq_some pm fx margin ps st row ev hf]
    obtain ⟨hc1, hc2, hc3, hc4⟩ := ucUpdateVariant_state
      (ucListVariants
        (rowProductUpsert st (rowBaseKey row) ps.category (rowUSD pm row * fx) margin
          (rowUSD pm row * fx * (1 + margin / 100))).2.1
        (rowProductUpsert st (rowBaseKey row) ps.category (rowUSD pm row * fx) margin
          (rowUSD pm row * fx * (1 + margin / 100))).1.pid).2
      (if trimSpace (rowStockStr row) ≠ [] ∧ 0 ≤ mapStock (rowStockStr row)
       then { ev with stock := mapStock (rowStockStr row) } else ev)
    refine ⟨InvP_mono A _ _ hc1 hc3 (le_of_eq hc2.symm) hInvC, ?_, ?_, ?_⟩
    · exact le_trans hu2 (le_trans (le_of_eq hl2.symm) (le_of_eq hc2.symm))
    · exact (hu3.trans hl4).trans hc4
    · refine List.IsPrefix.trans hu4 ?_
      rw [← hl3]
      rw [← hc3]

theorem stepRow_pres (A : List Product) (pm : PriceMap) (pricesText : Str)
    (fx margin : ℚ) (acc : PassState × Store) (row : Row)
    (hInv : InvP A acc.2) :
    InvP A (stepRow pm pricesText fx margin acc row).2 ∧
    acc.2.nextId ≤ (stepRow pm pricesText fx margin acc row).2.nextId ∧
    acc.2.log <+: (stepRow pm pricesText fx margin acc row).2.log ∧
    savedPids acc.2.log <+: savedPids (stepRow pm pricesText fx margin acc row).2.log := by
  unfold stepRow
  split
  · exact ⟨hInv, le_refl _, List.prefix_refl _, List.prefix_refl _⟩
  · split
    · exact ⟨hInv, le_refl _, List.prefix_refl _, List.prefix_refl _⟩
    · split
      · exact ⟨hInv, le_refl _, List.prefix_refl _, List.prefix_refl _⟩
      · split
        · exact ⟨hInv, le_refl _, List.prefix_refl _, List.prefix_refl _⟩
        · split
          · exact ⟨hInv, le_refl _, List.prefix_refl _, List.prefix_refl _⟩
          · exact stepRowMatched_pres A pm fx margin acc.1 acc.2 row hInv

end SalesCell

namespace SalesCell

/-- Row-loop fold preserves the pass invariant; the log and saved-pid list
only grow and the id counter never decreases. -/
theorem foldRows_pres (A : List Product) (pm : PriceMap) (pricesText : Str)
    (fx margin : ℚ) :
    ∀ (rows : List Row) (acc : PassState × Store), InvP A acc.2 →
      InvP A (rows.foldl (stepRow pm pricesText fx margin) acc).2 ∧
      acc.2.nextId ≤ (rows.foldl (stepRow pm pricesText fx margin) acc).2.nextId ∧
      acc.2.log <+: (rows.foldl (stepRow pm pricesText fx margin) acc).2.log ∧
      savedPids acc.2.log <+:
        savedPids (rows.foldl (stepRow pm pricesText fx margin) acc).2.log := by
  intro rows
  induction rows with
  | nil => exact fun acc h => ⟨h, le_refl _, List.prefix_refl _, List.prefix_refl _⟩
  | cons r rs ih =>
    intro acc h
    obtain ⟨h1, h2, h3, h4⟩ := stepRow_pres A pm pricesText fx margin acc r h
    obtain ⟨g1, g2, g3, g4⟩ := ih (stepRow pm pricesText fx margin acc r) h1
    exact ⟨g1, le_trans h2 g2, h3.trans g3, h4.trans g4⟩

theorem stepSheet_pres (A : List Product) (pm : PriceMap) (pricesText : Str)
    (fx margin : ℚ) (acc : PassState × Store) (rows : List Row)
    (h : InvP A acc.2) :
    InvP A (stepSheet pm pricesText fx margin acc rows).2 ∧
    acc.2.nextId ≤ (stepSheet pm pricesText fx margin acc rows).2.nextId ∧
    acc.2.log <+: (stepSheet pm pricesText fx margin acc rows).2.log ∧
    savedPids acc.2.log <+: savedPids (stepSheet pm pricesText fx margin acc rows).2.log :=
  foldRows_pres A pm pricesText fx margin rows ({ acc.1 with category := [] }, acc.2) h

theorem foldSheets_pres (A : List Product) (pm : PriceMap) (pricesText : Str)
    (fx margin : ℚ) :
    ∀ (sheets : List (List Row)) (acc : PassState × Store), InvP A acc.2 →
      InvP A (sheets.foldl (stepSheet pm pricesText fx margin) acc).2 ∧
      acc.2.nextId ≤ (sheets.foldl (stepSheet pm pricesText fx margin) acc).2.nextId ∧
      acc.2.log <+: (sheets.foldl (stepSheet pm pricesText fx margin) acc).2.log ∧
      savedPids acc.2.log <+:
        savedPids (sheets.foldl (stepSheet pm pricesText fx margin) acc).2.log := by
  intro sheets
  induction sheets with
  | nil => exact fun acc h => ⟨h, le_refl _, List.prefix_refl _, List.prefix_refl _⟩
  | cons s ss ih =>
    intro acc h
    obtain ⟨h1, h2, h3, h4⟩ := stepSheet_pres A pm pricesText fx margin acc s h
    obtain ⟨g1, g2, g3, g4⟩ := ih (stepSheet pm pricesText fx margin acc s) h1
    exact ⟨g1, le_trans h2 g2, h3.trans g3, h4.trans g4⟩

/-- `MarkAllInactive` at the start of the pass establishes the invariant
relative to the marked copies of the original products. -/
theorem markAllInactive_init (st : Store) (hwf : WFP st) (hlog : st.log = []) :
    InvP (st.products.map markInactive) (repoMarkAllInactive st) := by
  obtain ⟨hpos, hb, hndp, hnds⟩ := hwf
  have hsp : savedPids (repoMarkAllInactive st).log = [] := by
    unfold repoMarkAllInactive
    dsimp only
    rw [hlog]
    rfl
  have hprod : (repoMarkAllInactive st).products = st.products.map markInactive := rfl
  refine ⟨⟨hpos, ?_, ?_, ?_⟩, ?_, ?_, ?_, ?_, ?_⟩
  · intro p hp
    rw [hprod] at hp
    rcases List.mem_map.mp hp with ⟨r, hr, hre⟩
    subst hre
    exact hb r hr
  · rw [hprod, List.map_map]
    exact hndp
  · rw [hprod, List.map_map]
    exact hnds
  · intro q _ hsq
    rw [hsp] at hsq
    cases hsq
  · intro q hq _
    rw [hprod] at hq
    exact hq
  · intro p hp _
    rw [hprod]
    exact hp
  · intro q _ hsq
    rw [hsp] at hsq
    cases hsq
  · intro pid hpid
    rw [hsp] at hpid
    cases hpid

theorem sweepVariant_state (colors : List Str) (st : Store) (v : Variant) :
    (sweepVariant colors st v).products = st.products ∧
    (sweepVariant colors st v).nextId = st.nextId ∧
    savedPids (sweepVariant colors st v).log = savedPids st.log ∧
    st.log <+: (sweepVariant colors st v).log := by
  unfold sweepVariant
  split
  · exact ⟨rfl, rfl, rfl, List.prefix_refl _⟩
  · exact ucUpdateVariant_state st _

theorem sweepVariantsFold_state (colors : List Str) :
    ∀ (L : List Variant) (st : Store),
      (L.foldl (sweepVariant colors) st).products = st.products ∧
      (L.foldl (sweepVariant colors) st).nextId = st.nextId ∧
      savedPids (L.foldl (sweepVariant colors) st).log = savedPids st.log ∧
      st.log <+: (L.foldl (sweepVariant colors) st).log := by
  intro L
  induction L with
  | nil => exact fun st => ⟨rfl, rfl, rfl, List.prefix_refl _⟩
  | cons v vs ih =>
    intro st
    obtain ⟨h1, h2, h3, h4⟩ := sweepVariant_state colors st v
    obtain ⟨g1, g2, g3, g4⟩ := ih (sweepVariant colors st v)
    exact ⟨g1.trans h1, g2.trans h2, g3.trans h3, h4.trans g4⟩

theorem sweepEntry_state (st : Store) (e : Nat × List Str) :
    (sweepEntry st e).products = st.products ∧
    (sweepEntry st e).nextId = st.nextId ∧
    savedPids (sweepEntry st e).log = savedPids st.log ∧
    st.log <+: (sweepEntry st e).log := by
  obtain ⟨h1, h2, h3, h4⟩ := ucListVariants_state st e.1
  obtain ⟨g1, g2, g3, g4⟩ :=
    sweepVariantsFold_state e.2 (ucListVariants st e.1).1 (ucListVariants st e.1).2
  exact ⟨g1.trans h1, g2.trans h2, g3.trans h3, h4.trans g4⟩

theorem stockZeroSweep_state :
    ∀ (processed : List (Nat × List Str)) (st : Store),
      (stockZeroSweep st processed).products = st.products ∧
      (stockZeroSweep st processed).nextId = st.nextId ∧
      savedPids (stockZeroSweep st processed).log = savedPids st.log ∧
      st.log <+: (stockZeroSweep st processed).log := by
  intro processed
  induction processed with
  | nil => exact fun st => ⟨rfl, rfl, rfl, List.prefix_refl _⟩
  | cons e es ih =>
    intro st
    obtain ⟨h1, h2, h3, h4⟩ := sweepEntry_state st e
    obtain ⟨g1, g2, g3, g4⟩ := ih (sweepEntry st e)
    exact ⟨g1.trans h1, g2.trans h2, g3.trans h3, h4.trans g4⟩

/-- The three possible outcomes of a product save: constraint failure,
in-place update by primary key, or append. -/
theorem repoSaveProduct_products (st : Store) (p : Product) :
    (repoSaveProduct st p).products = st.products ∨
    (repoSaveProduct st p).products =
      st.products.map (fun q => if q.pid == p.pid then p else q) ∨
    (repoSaveProduct st p).products = st.products ++ [p] := by
  unfold repoSaveProduct
  split
  · exact Or.inl rfl
  · split
    · exact Or.inr (Or.inl rfl)
    · exact Or.inr (Or.inr rfl)

theorem ucCreateProduct_eq_zero (st : Store) (p : Product) (hz : p.pid = 0) :
    (ucCreateProduct st p).2 =
      repoSaveProduct { st with nextId := st.nextId + 1 }
        { p with pid := st.nextId, slug := computeSlug p.name } := by
  unfold ucCreateProduct
  rw [if_pos hz]

theorem ucCreateProduct_eq_pos (st : Store) (p : Product) (hz : ¬ p.pid = 0) :
    (ucCreateProduct st p).2 =
      repoSaveProduct st { p with slug := computeSlug p.name } := by
  unfold ucCreateProduct
  rw [if_neg hz]

end SalesCell

namespace SalesCell

/-- Name stability relative to the post-spreadsheet store `stA`: any final
record of a product that was saved during the spreadsheet pass keeps the
name (hence, for saved records, the slug) it had at the end of that pass. -/
def Q2 (stA st : Store) : Prop :=
  ∀ q ∈ st.products, q.pid ∈ savedPids stA.log →
    ∃ q1 ∈ stA.products, q1.pid = q.pid ∧ q1.name = q.name

theorem Q2_of_products_eq (stA st st' : Store) (h : st'.products = st.products)
    (hq : Q2 stA st) : Q2 stA st' := by
  intro q hmem hs
  rw [h] at hmem
  exact hq q hmem hs

theorem priceOnlyMatched_eq_none (pricesText : Str) (fx margin : ℚ)
    (acc : (Nat × Nat × Nat × Nat) × Store) (baseKey : Str) (usd : ℚ)
    (hf : (ucGetBySlug acc.2 (slugify baseKey)).1 = none) :
    (priceOnlyMatched pricesText fx margin acc baseKey usd).2 =
      (if (ucListVariants
          (ucCreateProduct (ucGetBySlug acc.2 (slugify baseKey)).2
            (priceOnlyNewProduct pricesText fx margin baseKey usd)).2
          (ucCreateProduct (ucGetBySlug acc.2 (slugify baseKey)).2
            (priceOnlyNewProduct pricesText fx margin baseKey usd)).1.pid).1 = [] then
        (ucCreateVariant
          (ucListVariants
            (ucCreateProduct (ucGetBySlug acc.2 (slugify baseKey)).2
              (priceOnlyNewProduct pricesText fx margin baseKey usd)).2
            (ucCreateProduct (ucGetBySlug acc.2 (slugify baseKey)).2
              (priceOnlyNewProduct pricesText fx margin baseKey usd)).1.pid).2
          { vid := 0,
            productID := (ucCreateProduct (ucGetBySlug acc.2 (slugify baseKey)).2
              (priceOnlyNewProduct pricesText fx margin baseKey usd)).1.pid,
            color := [], stock := 10 }).2
      else
        (ucListVariants
          (ucCreateProduct (ucGetBySlug acc.2 (slugify baseKey)).2
            (priceOnlyNewProduct pricesText fx margin baseKey usd)).2
          (ucCreateProduct (ucGetBySlug acc.2 (slugify baseKey)).2
            (priceOnlyNewProduct pricesText fx margin baseKey usd)).1.pid).2) := by
  unfold priceOnlyMatched
  dsimp only
  rw [hf]
  rw [apply_ite Prod.snd]

theorem priceOnlyMatched_eq_some (pricesText : Str) (fx margin : ℚ)
    (acc : (Nat × Nat × Nat × Nat) × Store) (baseKey : Str) (usd : ℚ) (p : Product)
    (hf : (ucGetBySlug acc.2 (slugify baseKey)).1 = some p) :
    (priceOnlyMatched pricesText fx margin acc baseKey usd).2 =
      (if (ucListVariants
          (ucCreateProduct (ucGetBySlug acc.2 (slugify baseKey)).2
            (priceOnlyUpdatedProduct pricesText fx margin baseKey usd p)).2
          (ucCreateProduct (ucGetBySlug acc.2 (slugify baseKey)).2
            (priceOnlyUpdatedProduct pricesText fx margin baseKey usd p)).1.pid).1 = [] then
        (ucCreateVariant
          (ucListVariants
            (ucCreateProduct (ucGetBySlug acc.2 (slugify baseKey)).2
              (priceOnlyUpdatedProduct pricesText fx margin baseKey usd p)).2
            (ucCreateProduct (ucGetBySlug acc.2 (slugify baseKey)).2
              (priceOnlyUpdatedProduct pricesText fx margin baseKey usd p)).1.pid).2
          { vid := 0,
            productID := (ucCreateProduct (ucGetBySlug acc.2 (slugify baseKey)).2
              (priceOnlyUpdatedProduct pricesText fx margin baseKey usd p)).1.pid,
            color := [], stock := 10 }).2
      else
        (ucListVariants
          (ucCreateProduct (ucGetBySlug acc.2 (slugify baseKey)).2
            (priceOnlyUpdatedProduct pricesText fx margin baseKey usd p)).2
          (ucCreateProduct (ucGetBySlug acc.2 (slugify baseKey)).2
            (priceOnlyUpdatedProduct pricesText fx margin baseKey usd p)).1.pid).2) := by
  unfold priceOnlyMatched
  dsimp only
  rw [hf]
  rw [apply_ite Prod.snd]

/-- The default-variant tail of a price-only entry only touches variants. -/
theorem priceOnlyVariantPart_state (stC : Store) (pid : Nat) :
    (if (ucListVariants stC pid).1 = [] then
      (ucCreateVariant (ucListVariants stC pid).2
        { vid := 0, productID := pid, color := [], stock := 10 }).2
     else (ucListVariants stC pid).2).products = stC.products ∧
    stC.nextId ≤ (if (ucListVariants stC pid).1 = [] then
      (ucCreateVariant (ucListVariants stC pid).2
        { vid := 0, productID := pid, color := [], stock := 10 }).2
     else (ucListVariants stC pid).2).nextId ∧
    savedPids (if (ucListVariants stC pid).1 = [] then
      (ucCreateVariant (ucListVariants stC pid).2
        { vid := 0, productID := pid, color := [], stock := 10 }).2
     else (ucListVariants stC pid).2).log = savedPids stC.log ∧
    stC.log <+: (if (ucListVariants stC pid).1 = [] then
      (ucCreateVariant (ucListVariants stC pid).2
        { vid := 0, productID := pid, color := [], stock := 10 }).2
     else (ucListVariants stC pid).2).log := by
  obtain ⟨h1, h2, h3, h4⟩ := ucListVariants_state stC pid
  split
  · obtain ⟨g1, g2, g3, g4⟩ := ucCreateVariant_state (ucListVariants stC pid).2
      { vid := 0, productID := pid, color := [], stock := 10 }
    exact ⟨g1.trans h1, le_trans (le_of_eq h2.symm) g2, g3.trans h3, h4.trans g4⟩
  · exact ⟨h1, le_of_eq h2.symm, h3, h4⟩

end SalesCell

namespace SalesCell

/-- A price-only entry that reaches the upsert path preserves the pass
invariant, grows the saved-pid set monotonically, and keeps the names of
spreadsheet-saved products stable. -/
theorem priceOnlyMatched_pres (A : List Product) (stA : Store) (pricesText : Str)
    (fx margin : ℚ) (acc : (Nat × Nat × Nat × Nat) × Store) (baseKey : Str) (usd : ℚ)
    (hbound : ∀ pid ∈ savedPids stA.log, pid < stA.nextId)
    (hInv : InvP A acc.2) (hn : stA.nextId ≤ acc.2.nextId)
    (hs : savedPids stA.log ⊆ savedPids acc.2.log) (hq : Q2 stA acc.2) :
    InvP A (priceOnlyMatched pricesText fx margin acc baseKey usd).2 ∧
    stA.nextId ≤ (priceOnlyMatched pricesText fx margin acc baseKey usd).2.nextId ∧
    savedPids stA.log ⊆
      savedPids (priceOnlyMatched pricesText fx margin acc baseKey usd).2.log ∧
    Q2 stA (priceOnlyMatched pricesText fx margin acc baseKey usd).2 := by
  obtain ⟨hg1, hg2, hg3, hg4, hg5⟩ := ucGetBySlug_state acc.2 (slugify baseKey)
  have hInvG : InvP A (ucGetBySlug acc.2 (slugify baseKey)).2 :=
    InvP_mono A acc.2 _ hg1 hg4 (le_of_eq hg3.symm) hInv
  have hqG : Q2 stA (ucGetBySlug acc.2 (slugify baseKey)).2 :=
    Q2_of_products_eq stA acc.2 _ hg1 hq
  have hsG : savedPids stA.log ⊆ savedPids (ucGetBySlug acc.2 (slugify baseKey)).2.log := by
    rw [hg4]
    exact hs
  have hnG : stA.nextId ≤ (ucGetBySlug acc.2 (slugify baseKey)).2.nextId := by
    rw [hg3]
    exact hn
  cases hf : (ucGetBySlug acc.2 (slugify baseKey)).1 with
  | none =>
    rw [priceOnlyMatched_eq_none pricesText fx margin acc baseKey usd hf]
    obtain ⟨hc1, hc2, hc3, hc4⟩ := ucCreateProduct_pres A
      (ucGetBySlug acc.2 (slugify baseKey)).2
      (priceOnlyNewProduct pricesText fx margin baseKey usd) hInvG rfl (Or.inl rfl)
    have hq2 : Q2 stA (ucCreateProduct (ucGetBySlug acc.2 (slugify baseKey)).2
        (priceOnlyNewProduct pricesText fx margin baseKey usd)).2 := by
      rw [ucCreateProduct_eq_zero _ _ rfl]
      intro q hmem hsq
      rcases repoSaveProduct_products
          { (ucGetBySlug acc.2 (slugify baseKey)).2 with
            nextId := (ucGetBySlug acc.2 (slugify baseKey)).2.nextId + 1 }
          { priceOnlyNewProduct pricesText fx margin baseKey usd with
            pid := (ucGetBySlug acc.2 (slugify baseKey)).2.nextId,
            slug := computeSlug (priceOnlyNewProduct pricesText fx margin baseKey usd).name }
        with hcase | hcase | hcase
      · rw [hcase] at hmem
        exact hqG q hmem hsq
      · rw [hcase] at hmem
        rcases List.mem_map.mp hmem with ⟨r, hr, hre⟩
        split at hre
        · subst hre
          exact absurd (hbound _ hsq) (not_lt.mpr hnG)
        · subst hre
          exact hqG r hr hsq
      · rw [hcase] at hmem
        rcases List.mem_append.mp hmem with hin | hin
        · exact hqG q hin hsq
        · rw [List.mem_singleton] at hin
          subst hin
          exact absurd (hbound _ hsq) (not_lt.mpr hnG)
    obtain ⟨hv1, hv2, hv3, hv4⟩ := priceOnlyVariantPart_state
      (ucCreateProduct (ucGetBySlug acc.2 (slugify baseKey)).2
        (priceOnlyNewProduct pricesText fx margin baseKey usd)).2
      (ucCreateProduct (ucGetBySlug acc.2 (slugify baseKey)).2
        (priceOnlyNewProduct pricesText fx margin baseKey usd)).1.pid
    refine ⟨InvP_mono A _ _ hv1 hv3 hv2 hc1, ?_, ?_,
      Q2_of_products_eq stA _ _ hv1 hq2⟩
    · exact le_trans (le_trans hnG hc2) hv2
    · intro x hx
      rw [hv3]
      exact hc4.subset (hsG hx)
  | some p =>
    rw [priceOnlyMatched_eq_some pricesText fx margin acc baseKey usd p hf]
    have hpmem : p ∈ (ucGetBySlug acc.2 (slugify baseKey)).2.products := by
      rw [hg1]
      exact ucGetBySlug_found acc.2 (slugify baseKey) p hf
    have hpid0 : p.pid ≠ 0 := by
      obtain ⟨⟨_, hbnd, _, _⟩, _, _, _, _, _⟩ := hInvG
      exact (hbnd p hpmem).1
    obtain ⟨hc1, hc2, hc3, hc4⟩ := ucCreateProduct_pres A
      (ucGetBySlug acc.2 (slugify baseKey)).2
      (priceOnlyUpdatedProduct pricesText fx margin baseKey usd p) hInvG rfl
      (Or.inr ⟨p, hpmem, rfl⟩)
    have hq2 : Q2 stA (ucCreateProduct (ucGetBySlug acc.2 (slugify baseKey)).2
        (priceOnlyUpdatedProduct pricesText fx margin baseKey usd p)).2 := by
      rw [ucCreateProduct_eq_pos (ucGetBySlug acc.2 (slugify baseKey)).2
        (priceOnlyUpdatedProduct pricesText fx margin baseKey usd p) hpid0]
      intro q hmem hsq
      rcases repoSaveProduct_products (ucGetBySlug acc.2 (slugify baseKey)).2
          { priceOnlyUpdatedProduct pricesText fx margin baseKey usd p with
            slug := computeSlug
              (priceOnlyUpdatedProduct pricesText fx margin baseKey usd p).name }
        with hcase | hcase | hcase
      · rw [hcase] at hmem
        exact hqG q hmem hsq
      · rw [hcase] at hmem
        rcases List.mem_map.mp hmem with ⟨r, hr, hre⟩
        split at hre
        · subst hre
          obtain ⟨q1, hq1mem, hq1pid, hq1name⟩ := hqG p hpmem hsq
          exact ⟨q1, hq1mem, hq1pid, hq1name⟩
        · subst hre
          exact hqG r hr hsq
      · rw [hcase] at hmem
        rcases List.mem_append.mp hmem with hin | hin
        · exact hqG q hin hsq
        · rw [List.mem_singleton] at hin
          subst hin
          obtain ⟨q1, hq1mem, hq1pid, hq1name⟩ := hqG p hpmem hsq
          exact ⟨q1, hq1mem, hq1pid, hq1name⟩
    obtain ⟨hv1, hv2, hv3, hv4⟩ := priceOnlyVariantPart_state
      (ucCreateProduct (ucGetBySlug acc.2 (slugify baseKey)).2
        (priceOnlyUpdatedProduct pricesText fx margin baseKey usd p)).2
      (ucCreateProduct (ucGetBySlug acc.2 (slugify baseKey)).2
        (priceOnlyUpdatedProduct pricesText fx margin baseKey usd p)).1.pid
    refine ⟨InvP_mono A _ _ hv1 hv3 hv2 hc1, ?_, ?_,
      Q2_of_products_eq stA _ _ hv1 hq2⟩
    · exact le_trans (le_trans hnG hc2) hv2
    · intro x hx
      rw [hv3]
      exact hc4.subset (hsG hx)

theorem priceOnlyStep_pres (A : List Product) (stA : Store) (pricesText : Str)
    (fx margin : ℚ) (excel : List Str)
    (hbound : ∀ pid ∈ savedPids stA.log, pid < stA.nextId)
    (acc : (Nat × Nat × Nat × Nat) × Store) (e : Str × ℚ)
    (hInv : InvP A acc.2) (hn : stA.nextId ≤ acc.2.nextId)
    (hs : savedPids stA.log ⊆ savedPids acc.2.log) (hq : Q2 stA acc.2) :
    InvP A (priceOnlyStep pricesText fx margin excel acc e).2 ∧
    stA.nextId ≤ (priceOnlyStep pricesText fx margin excel acc e).2.nextId ∧
    savedPids stA.log ⊆ savedPids (priceOnlyStep pricesText fx margin excel acc e).2.log ∧
    Q2 stA (priceOnlyStep pricesText fx margin excel acc e).2 := by
  unfold priceOnlyStep
  split
  · exact ⟨hInv, hn, hs, hq⟩
  · split
    · exact ⟨hInv, hn, hs, hq⟩
    · exact priceOnlyMatched_pres A stA pricesText fx margin acc e.1 e.2 hbound hInv hn hs hq

theorem priceOnlyFold_pres (A : List Product) (stA : Store) (pricesText : Str)
    (fx margin : ℚ) (excel : List Str)
    (hbound : ∀ pid ∈ savedPids stA.log, pid < stA.nextId) :
    ∀ (pm : List (Str × ℚ)) (acc : (Nat × Nat × Nat × Nat) × Store),
      InvP A acc.2 → stA.nextId ≤ acc.2.nextId →
      savedPids stA.log ⊆ savedPids acc.2.log → Q2 stA acc.2 →
      InvP A (pm.foldl (priceOnlyStep pricesText fx margin excel) acc).2 ∧
      stA.nextId ≤ (pm.foldl (priceOnlyStep pricesText fx margin excel) acc).2.nextId ∧
      savedPids stA.log ⊆
        savedPids (pm.foldl (priceOnlyStep pricesText fx margin excel) acc).2.log ∧
      Q2 stA (pm.foldl (priceOnlyStep pricesText fx margin excel) acc).2 := by
  intro pm
  induction pm with
  | nil => exact fun acc h1 h2 h3 h4 => ⟨h1, h2, h3, h4⟩
  | cons e es ih =>
    intro acc h1 h2 h3 h4
    obtain ⟨g1, g2, g3, g4⟩ :=
      priceOnlyStep_pres A stA pricesText fx margin excel hbound acc e h1 h2 h3 h4
    exact ih (priceOnlyStep pricesText fx margin excel acc e) g1 g2 g3 g4

end SalesCell

namespace SalesCell

/-- The deprecated-slug list of the report stored by a full deterministic
pass (empty when the workbook could not be opened and no report was
stored). -/
def importDeprecatedSlugs (wb : Option Workbook) (pricesText : Str) (fx margin : ℚ)
    (st : Store) : List Str :=
  ((fullImportPass wb pricesText fx margin st).2.2.map
    (fun rep => rep.deprecatedSlugs)).getD []

/-- C1 (corrected).  One full deterministic import pass with a readable
workbook, started from a well-formed store with a fresh operation log, on
sheets whose rows never have length exactly 2 (the Go row loop reads
`row[2]` unconditionally once the name is non-empty, so a length-2 row
panics): a report is stored; every product whose save succeeded at any
point of the pass ends with `active = true`; every product saved during
the spreadsheet phase ends with its slug absent from the report's
`deprecated_slugs`; and every pre-existing product touched by neither feed
survives as its marked-inactive copy, with `active = false` and its slug
present in `deprecated_slugs`.  (The original claim's stronger clause —
that products upserted by the price-list-only phase also have their slugs
absent from `deprecated_slugs` — is false, because `GetInactiveSlugs` runs
at the end of `importFromXLSXCombined`, before `importFromPricesTextOnly`;
see the counterexample.) -/
theorem fullImportPass_deprecation (sheets : Workbook) (pricesText : Str)
    (fx margin : ℚ) (st : Store)
    (hwf : WFP st) (hlog : st.log = [])
    (_hrows : ∀ sheet ∈ sheets, ∀ row ∈ sheet, List.length row ≠ 2) :
    ((fullImportPass (some sheets) pricesText fx margin st).2.2).isSome = true ∧
    (∀ q ∈ (fullImportPass (some sheets) pricesText fx margin st).2.1.products,
      q.pid ∈ savedPids (fullImportPass (some sheets) pricesText fx margin st).2.1.log →
      q.active = true) ∧
    (∀ q ∈ (fullImportPass (some sheets) pricesText fx margin st).2.1.products,
      q.pid ∈ savedPids (importFromXLSXCombined (some sheets) (parseUSDPrices pricesText)
        pricesText fx margin st).2.1.log →
      q.slug ∉ importDeprecatedSlugs (some sheets) pricesText fx margin st) ∧
    (∀ p ∈ st.products,
      p.pid ∉ savedPids (fullImportPass (some sheets) pricesText fx margin st).2.1.log →
      markInactive p ∈ (fullImportPass (some sheets) pricesText fx margin st).2.1.products ∧
      (markInactive p).active = false ∧
      p.slug ∈ importDeprecatedSlugs (some sheets) pricesText fx margin st) := by
  have hSTA : (importFromXLSXCombined (some sheets) (parseUSDPrices pricesText)
      pricesText fx margin st).2.1 =
      (repoGetInactiveSlugs (stockZeroSweep
        (sheets.foldl (stepSheet (parseUSDPrices pricesText) pricesText fx margin)
          (emptyPassState, repoMarkAllInactive st)).2
        (sheets.foldl (stepSheet (parseUSDPrices pricesText) pricesText fx margin)
          (emptyPassState, repoMarkAllInactive st)).1.processed)).2 := rfl
  have hSTF : (fullImportPass (some sheets) pricesText fx margin st).2.1 =
      ((parseUSDPrices pricesText).foldl
        (priceOnlyStep pricesText fx margin (excelBaseKeys (some sheets)))
        ((0, 0, 0, 0),
          (importFromXLSXCombined (some sheets) (parseUSDPrices pricesText)
            pricesText fx margin st).2.1)).2 := rfl
  have hDEP : importDeprecatedSlugs (some sheets) pricesText fx margin st =
      ((stockZeroSweep
        (sheets.foldl (stepSheet (parseUSDPrices pricesText) pricesText fx margin)
          (emptyPassState, repoMarkAllInactive st)).2
        (sheets.foldl (stepSheet (parseUSDPrices pricesText) pricesText fx margin)
          (emptyPassState, repoMarkAllInactive st)).1.processed).products.filter
          (fun p => !p.active)).map (fun p => p.slug) := rfl
  rw [hSTF, hSTA, hDEP]
  set pm := parseUSDPrices pricesText with hpm
  set st1 := repoMarkAllInactive st with hst1
  set r := sheets.foldl (stepSheet pm pricesText fx margin) (emptyPassState, st1) with hr
  set st2 := stockZeroSweep r.2 r.1.processed with hst2
  set stA := (repoGetInactiveSlugs st2).2 with hstA2
  set stF := (pm.foldl (priceOnlyStep pricesText fx margin (excelBaseKeys (some sheets)))
    ((0, 0, 0, 0), stA)).2 with hstF2
  have hInit : InvP (st.products.map markInactive) st1 := by
    rw [hst1]
    exact markAllInactive_init st hwf hlog
  obtain ⟨hR1, hR2, hR3, hR4⟩ := foldSheets_pres (st.products.map markInactive) pm
    pricesText fx margin sheets (emptyPassState, st1) hInit
  rw [← hr] at hR1 hR2 hR3 hR4
  obtain ⟨hw1, hw2, hw3, hw4⟩ := stockZeroSweep_state r.1.processed r.2
  rw [← hst2] at hw1 hw2 hw3 hw4
  have hInv2 : InvP (st.products.map markInactive) st2 :=
    InvP_mono _ r.2 st2 hw1 hw3 (le_of_eq hw2.symm) hR1
  obtain ⟨hg1, hg2, hg3, hg4⟩ := repoGetInactiveSlugs_state st2
  rw [← hstA2] at hg1 hg2 hg3 hg4
  have hInvA : InvP (st.products.map markInactive) stA :=
    InvP_mono _ st2 stA hg1 hg3 (le_of_eq hg2.symm) hInv2
  have hbound : ∀ pid ∈ savedPids stA.log, pid < stA.nextId := by
    intro pid hpid
    obtain ⟨q, hqmem, hqpid⟩ := hInvA.2.2.2.2.2 pid hpid
    rw [← hqpid]
    exact (hInvA.1.2.1 q hqmem).2
  obtain ⟨hF1, hF2, hF3, hF4⟩ := priceOnlyFold_pres (st.products.map markInactive) stA
    pricesText fx margin (excelBaseKeys (some sheets)) hbound pm ((0, 0, 0, 0), stA)
    hInvA (le_refl _) (fun x hx => hx) (fun q hq _ => ⟨q, hq, rfl, rfl⟩)
  rw [← hstF2] at hF1 hF2 hF3 hF4
  obtain ⟨hWA, hA1, hA2, hA3, hA4, hA5⟩ := hInvA
  obtain ⟨hposA, hbA, hndpA, hndsA⟩ := hWA
  obtain ⟨hFW, hFact, hFun, hFc3, hFslug, hFc5⟩ := hF1
  refine ⟨rfl, hFact, ?_, ?_⟩
  · intro q hq hsq hdep
    obtain ⟨q1, hq1mem, hq1pid, hq1name⟩ := hF4 q hq hsq
    have hq1sv : q1.pid ∈ savedPids stA.log := by
      rw [hq1pid]
      exact hsq
    have hq1act : q1.active = true := hA1 q1 hq1mem hq1sv
    have hq1slug : q1.slug = computeSlug q1.name := hA4 q1 hq1mem hq1sv
    have hqsv : q.pid ∈ savedPids stF.log := hF3 hsq
    have hqslug : q.slug = computeSlug q.name := hFslug q hq hqsv
    have hslugeq : q1.slug = q.slug := by
      rw [hq1slug, hqslug, hq1name]
    rcases List.mem_map.mp hdep with ⟨rr, hrrmem, hrre⟩
    obtain ⟨hrrmem2, hrract⟩ := List.mem_filter.mp hrrmem
    have hract2 : rr.active = false := by
      have hb : (!rr.active) = true := hrract
      cases hAct : rr.active
      · rfl
      · rw [hAct] at hb
        exact absurd hb (by decide)
    have hrrA : rr ∈ stA.products := by
      rw [hg1]
      exact hrrmem2
    have hreq : rr = q1 :=
      List.inj_on_of_nodup_map hndsA hrrA hq1mem
        (show rr.slug = q1.slug by
          have h1 : rr.slug = q.slug := hrre
          rw [h1, ← hslugeq])
    rw [hreq] at hract2
    rw [hq1act] at hract2
    cases hract2
  · intro p hp hnsv
    have hpA : markInactive p ∈ st.products.map markInactive := List.mem_map_of_mem _ hp
    have hmemF : markInactive p ∈ stF.products := hFc3 (markInactive p) hpA hnsv
    refine ⟨hmemF, rfl, ?_⟩
    have hpidA : (markInactive p).pid ∉ savedPids stA.log := fun hc => hnsv (hF3 hc)
    have hmemA : markInactive p ∈ stA.products := hA3 (markInactive p) hpA hpidA
    have hmem2 : markInactive p ∈ st2.products := by
      rw [hg1] at hmemA
      exact hmemA
    refine List.mem_map.mpr ⟨markInactive p, ?_, rfl⟩
    exact List.mem_filter.mpr ⟨hmem2, rfl⟩

/-- Fixture for C1: one pre-existing product "Ipad" with slug "ipad". -/
def c1uProduct : Product :=
  { pid := 1, slug := s2l "ipad", name := s2l "Ipad", category := [],
    brand := [], modelName := [], grossPrice := 0, marginPct := 0,
    basePrice := 0, active := true }

def c1uStore : Store :=
  { products := [c1uProduct], variants := [], nextId := 2, log := [] }

/-- Witness for C1 at a concrete input: a pass with an empty (readable)
workbook and empty price text leaves the untouched product present as its
inactive copy, with its slug in the deprecated list. -/
theorem fullImportPass_deprecation_witness :
    markInactive c1uProduct ∈
      (fullImportPass (some []) [] 1 0 c1uStore).2.1.products ∧
    c1uProduct.slug ∈ importDeprecatedSlugs (some []) [] 1 0 c1uStore := by
  have h := fullImportPass_deprecation [] [] 1 0 c1uStore
    ⟨by decide, by decide, by decide, by decide⟩ rfl
    (fun s hs => absurd hs (List.not_mem_nil _))
  obtain ⟨h0, h1, h2, h3⟩ := h
  obtain ⟨ha, hb, hc⟩ := h3 c1uProduct (by decide) (by decide)
  exact ⟨ha, hc⟩

/-- C1 counterexample to the original claim: with an empty (readable)
workbook, price text "Ipad $100", fx 1 and margin 0, the pre-existing
product "ipad" is upserted by the price-list-only phase — so it ends the
pass saved and active — yet its slug IS in the report's deprecated_slugs,
because the deprecated set was computed before that phase ran. -/
theorem fullImportPass_priceOnly_deprecated_overlap :
    ((fullImportPass (some []) (s2l "Ipad $100") 1 0 c1uStore).2.1.products.map
      (fun q => (q.pid, q.slug, q.active))) = [(1, s2l "ipad", true)] ∧
    savedPids (fullImportPass (some []) (s2l "Ipad $100") 1 0 c1uStore).2.1.log = [1] ∧
    importDeprecatedSlugs (some []) (s2l "Ipad $100") 1 0 c1uStore = [s2l "ipad"] := by
  refine ⟨?_, ?_, ?_⟩
  · decide
  · decide
  · decide

end SalesCell
